import Mathlib

/-! # Detective Quest: clue index, suspect directory, navigation and verdict

A shallow embedding of `mestre.c`, `aventureiro.c` and `novato,.c`.

* A C string is the list of its bytes before the terminator (`CStr`); a
  `const char *` that may be `NULL` is an `Option CStr`.
* A pointer to a heap node is the inductive value it points to, the null
  pointer being the constructor `nulo`; a function that updates a structure
  through a pointer returns the updated structure.
* Allocation is assumed to succeed.
-/

set_option autoImplicit false

/-! ## Definitions -/

/-- Bytes of a C string before its terminating zero, each a value in `1..255`. -/
abbrev CStr := List Nat

/-- Sign of `strcmp(a, b)`: the strings are compared byte by byte as unsigned
values, and the end of a string (its zero terminator) is below every byte.
The C standard fixes only the sign of the result, which is all the programs use. -/
def strcmp : CStr → CStr → Int
  | [], [] => 0
  | [], _ :: _ => -1
  | _ :: _, [] => 1
  | a :: as, b :: bs =>
    if a = b then strcmp as bs else if a < b then -1 else 1

namespace Mestre

/-- Node of the clue search tree (`struct PistaNode`); `nulo` is the null pointer. -/
inductive PistaNode where
  | nulo : PistaNode
  | no (esq : PistaNode) (pista : CStr) (dir : PistaNode) : PistaNode
  deriving DecidableEq, Repr

/-- Function `criarPistaNode`: a fresh leaf holding a copy of the text. -/
def criarPistaNode (pista : CStr) : PistaNode :=
  .no .nulo pista .nulo

/-- Function `inserirPista(&root, pista)`: the tree stored in `*root` afterwards. -/
def inserirPista : PistaNode → Option CStr → PistaNode
  | root, none => root
  | .nulo, some pista => criarPistaNode pista
  | .no esq p dir, some pista =>
    let cmp := strcmp pista p
    if cmp = 0 then .no esq p dir
    else if cmp < 0 then .no (inserirPista esq (some pista)) p dir
    else .no esq p (inserirPista dir (some pista))

/-- Texts in the order `imprimirPistasInOrder` prints them. -/
def imprimirPistasInOrder : PistaNode → List CStr
  | .nulo => []
  | .no esq p dir => imprimirPistasInOrder esq ++ p :: imprimirPistasInOrder dir

/-- Insert the texts of a list one by one, first element first. -/
def inserirTodas (root : PistaNode) (pistas : List CStr) : PistaNode :=
  pistas.foldl (fun t x => inserirPista t (some x)) root

/-- Call `inserirPista` with the same text `n` times in a row. -/
def inserirVezes (root : PistaNode) (pista : CStr) : Nat → PistaNode
  | 0 => root
  | n + 1 => inserirVezes (inserirPista root (some pista)) pista n


/-! ### The suspect directory of `mestre.c` -/

/-- Number of buckets of the table (`#define HASH_SIZE 101`). -/
def HASH_SIZE : Nat := 101

/-- Width in bits of `unsigned long`, here that of the LP64 data model. -/
def ULONG_BITS : Nat := 64

/-- One round of the loop of `hash_djb2`, in `unsigned long` arithmetic of
`w` bits: `hash = ((hash << 5) + hash) + c`. -/
def hashPasso (w hash c : Nat) : Nat :=
  (((hash <<< 5) % 2 ^ w + hash) % 2 ^ w + c) % 2 ^ w

/-- The function `hash_djb2` for an `unsigned long` of `w` bits. -/
def hash_djb2_em (w : Nat) (str : CStr) : Nat :=
  str.foldl (hashPasso w) 5381

/-- Function `hash_djb2(str)`. -/
def hash_djb2 (str : CStr) : Nat :=
  hash_djb2_em ULONG_BITS str

/-- One `struct HashItem`; the chain through `prox` is a list of items. -/
structure HashItem where
  pista : CStr
  suspeito : CStr
  deriving DecidableEq, Repr

/-- The table (`HashTable`): one chain for each of the `HASH_SIZE` buckets. -/
structure HashTable where
  buckets : Fin HASH_SIZE → List HashItem

/-- Bucket of a key: `hash_djb2(pista) % HASH_SIZE`. -/
def indice (pista : CStr) : Fin HASH_SIZE :=
  ⟨hash_djb2 pista % HASH_SIZE, Nat.mod_lt _ (by decide)⟩

/-- Function `inicializarHash`: every bucket is the empty chain. -/
def inicializarHash : HashTable :=
  ⟨fun _ => []⟩

/-- The `while (cur)` loop of `inserirNaHash`: the chain with the suspect of
the first item whose key equals `pista` replaced, or `none` when the loop runs
off the end of the chain without a match. -/
def atualizarNaLista (pista suspeito : CStr) : List HashItem → Option (List HashItem)
  | [] => none
  | cur :: prox =>
    if strcmp cur.pista pista = 0 then some ({ cur with suspeito := suspeito } :: prox)
    else (atualizarNaLista pista suspeito prox).map (fun l => cur :: l)

/-- Function `inserirNaHash(ht, pista, suspeito)`: the table afterwards. -/
def inserirNaHash (ht : HashTable) : Option CStr → Option CStr → HashTable
  | some pista, some suspeito =>
    let h := indice pista
    match atualizarNaLista pista suspeito (ht.buckets h) with
    | some lista => ⟨fun i => if i = h then lista else ht.buckets i⟩
    | none => ⟨fun i => if i = h then ⟨pista, suspeito⟩ :: ht.buckets h else ht.buckets i⟩
  | _, _ => ht

/-- The `while (cur)` loop of `encontrarSuspeito` over one chain. -/
def procurarNaLista (pista : CStr) : List HashItem → Option CStr
  | [] => none
  | cur :: prox =>
    if strcmp cur.pista pista = 0 then some cur.suspeito else procurarNaLista pista prox

/-- Function `encontrarSuspeito(ht, pista)`; `none` is the `NULL` result. -/
def encontrarSuspeito (ht : HashTable) : Option CStr → Option CStr
  | none => none
  | some pista => procurarNaLista pista (ht.buckets (indice pista))

/-- A sequence of `inserirNaHash(key, value)` calls with non-null arguments. -/
def aplicarInsercoes (ht : HashTable) (ops : List (CStr × CStr)) : HashTable :=
  ops.foldl (fun t kv => inserirNaHash t (some kv.1) (some kv.2)) ht

/-- Value of the last call of the sequence whose key is exactly `k`, if any. -/
def ultimaAssociacao (ops : List (CStr × CStr)) (k : CStr) : Option CStr :=
  (ops.reverse.find? (fun kv => decide (kv.1 = k))).map Prod.snd

/-! ### The verdict of `mestre.c` -/

/-- Function `contarPistasParaSuspeito(root, ht, suspeito)`; the C `int` is taken
unbounded (a tree of `2^31` nodes is out of reach). -/
def contarPistasParaSuspeito : PistaNode → HashTable → CStr → Int
  | .nulo, _, _ => 0
  | .no esq p dir, ht, suspeito =>
    let count : Int :=
      match encontrarSuspeito ht (some p) with
      | some s => if strcmp s suspeito = 0 then 1 else 0
      | none => 0
    count + contarPistasParaSuspeito esq ht suspeito
      + contarPistasParaSuspeito dir ht suspeito

/-- Function `isspace` of the C locale: space, `\t`, `\n`, `\v`, `\f`, `\r`. -/
def isspace (c : Nat) : Bool :=
  c = 32 || (9 ≤ c && c ≤ 13)

/-- Statement `acusado[strcspn(acusado, "\n")] = 0`: the text before the first newline. -/
def cortarNoNewline (s : CStr) : CStr :=
  s.takeWhile (fun c => c ≠ 10)

/-- Loop `while (*start && isspace(*start)) start++`: leading white space skipped. -/
def pularBrancos (s : CStr) : CStr :=
  s.dropWhile isspace

/-- What `verificarSuspeitoFinal` reports. -/
inductive Julgamento where
  /-- Message "Você não coletou nenhuma pista." -/
  | semPistas : Julgamento
  /-- Message "Erro de leitura. Encerrando." -/
  | erroLeitura : Julgamento
  /-- Message "Nome inválido. Acusação inválida." -/
  | nomeInvalido : Julgamento
  /-- Message "Parabéns. Existem evidências suficientes": the accused is the culprit. -/
  | suficiente (acusado : CStr) (contagem : Int) : Julgamento
  /-- Message "Evidências insuficientes." -/
  | insuficiente (acusado : CStr) (contagem : Int) : Julgamento
  deriving DecidableEq, Repr

/-- Function `verificarSuspeitoFinal(pistasColetadas, ht)`. The input is the list of
buffers that the successive successful `fgets` calls deliver (the empty list:
`fgets` returns `NULL`); the result is the report and the input left unread. -/
def verificarSuspeitoFinal (pistasColetadas : PistaNode) (ht : HashTable)
    (entrada : List CStr) : Julgamento × List CStr :=
  match pistasColetadas with
  | .nulo => (.semPistas, entrada)
  | .no _ _ _ =>
    match entrada with
    | [] => (.erroLeitura, [])
    | acusado :: resto =>
      let start := pularBrancos (cortarNoNewline acusado)
      if start = [] then (.nomeInvalido, resto)
      else
        let contagem := contarPistasParaSuspeito pistasColetadas ht start
        if contagem ≥ 2 then (.suficiente start contagem, resto)
        else (.insuficiente start contagem, resto)

/-- The report is the "sufficient evidence" one. -/
def Julgamento.ehSuficiente : Julgamento → Bool
  | .suficiente _ _ => true
  | _ => false

/-- The report is the "insufficient evidence" one. -/
def Julgamento.ehInsuficiente : Julgamento → Bool
  | .insuficiente _ _ => true
  | _ => false

/-- The index of the tally example: the clues "A", "B", "C" inserted in turn. -/
def indiceABC : PistaNode :=
  inserirTodas .nulo [[65], [66], [67]]

/-- Text "Carlos". -/
def nomeCarlos : CStr := [67, 97, 114, 108, 111, 115]

/-- Text "Ana". -/
def nomeAna : CStr := [65, 110, 97]

/-- The directory of the tally example: A to Carlos, B to Ana, C to Carlos. -/
def diretorioABC : HashTable :=
  aplicarInsercoes inicializarHash [([65], nomeCarlos), ([66], nomeAna), ([67], nomeCarlos)]

/-! ### Rooms and exploration of `mestre.c` -/

/-- Room name "Entrada" (UTF-8 bytes). -/
def salaEntrada : CStr :=
  [69, 110, 116, 114, 97, 100, 97]

/-- Clue "pegada lamacenta" (UTF-8 bytes). -/
def pistaEntrada : CStr :=
  [112, 101, 103, 97, 100, 97, 32, 108, 97, 109, 97, 99, 101, 110, 116, 97]

/-- Room name "Sala de Estar" (UTF-8 bytes). -/
def salaSalaDeEstar : CStr :=
  [83, 97, 108, 97, 32, 100, 101, 32, 69, 115, 116, 97, 114]

/-- Clue "taça com manchas de vinho" (UTF-8 bytes). -/
def pistaSalaDeEstar : CStr :=
  [116, 97, 195, 167, 97, 32, 99, 111, 109, 32, 109, 97, 110, 99, 104, 97, 115, 32, 100, 101, 32, 118, 105, 110, 104, 111]

/-- Room name "Cozinha" (UTF-8 bytes). -/
def salaCozinha : CStr :=
  [67, 111, 122, 105, 110, 104, 97]

/-- Clue "cheiro de produto de limpeza" (UTF-8 bytes). -/
def pistaCozinha : CStr :=
  [99, 104, 101, 105, 114, 111, 32, 100, 101, 32, 112, 114, 111, 100, 117, 116, 111, 32, 100, 101, 32, 108, 105, 109, 112, 101, 122, 97]

/-- Room name "Biblioteca" (UTF-8 bytes). -/
def salaBiblioteca : CStr :=
  [66, 105, 98, 108, 105, 111, 116, 101, 99, 97]

/-- Clue "livro faltando" (UTF-8 bytes). -/
def pistaBiblioteca : CStr :=
  [108, 105, 118, 114, 111, 32, 102, 97, 108, 116, 97, 110, 100, 111]

/-- Room name "Escritório" (UTF-8 bytes). -/
def salaEscritorio : CStr :=
  [69, 115, 99, 114, 105, 116, 195, 179, 114, 105, 111]

/-- Clue "nota rasgada" (UTF-8 bytes). -/
def pistaEscritorio : CStr :=
  [110, 111, 116, 97, 32, 114, 97, 115, 103, 97, 100, 97]

/-- Room name "Quarto Mestre" (UTF-8 bytes). -/
def salaQuartoMestre : CStr :=
  [81, 117, 97, 114, 116, 111, 32, 77, 101, 115, 116, 114, 101]

/-- Clue "fio de cabelo loiro" (UTF-8 bytes). -/
def pistaQuartoMestre : CStr :=
  [102, 105, 111, 32, 100, 101, 32, 99, 97, 98, 101, 108, 111, 32, 108, 111, 105, 114, 111]

/-- Room name "Closet" (UTF-8 bytes). -/
def salaCloset : CStr :=
  [67, 108, 111, 115, 101, 116]

/-- Clue "botão quebrado" (UTF-8 bytes). -/
def pistaCloset : CStr :=
  [98, 111, 116, 195, 163, 111, 32, 113, 117, 101, 98, 114, 97, 100, 111]

/-- Room name "Jardim" (UTF-8 bytes). -/
def salaJardim : CStr :=
  [74, 97, 114, 100, 105, 109]

/-- Clue "pegadas molhadas" (UTF-8 bytes). -/
def pistaJardim : CStr :=
  [112, 101, 103, 97, 100, 97, 115, 32, 109, 111, 108, 104, 97, 100, 97, 115]

/-- Room name "Porão" (UTF-8 bytes). -/
def salaPorao : CStr :=
  [80, 111, 114, 195, 163, 111]

/-- Clue "ferramenta com manchas" (UTF-8 bytes). -/
def pistaPorao : CStr :=
  [102, 101, 114, 114, 97, 109, 101, 110, 116, 97, 32, 99, 111, 109, 32, 109, 97, 110, 99, 104, 97, 115]

/-- Function `pistaParaSala(nomeSala)`; `none` is the `NULL` result. -/
def pistaParaSala (nomeSala : CStr) : Option CStr :=
  if strcmp nomeSala salaEntrada = 0 then some pistaEntrada
  else if strcmp nomeSala salaSalaDeEstar = 0 then some pistaSalaDeEstar
  else if strcmp nomeSala salaCozinha = 0 then some pistaCozinha
  else if strcmp nomeSala salaBiblioteca = 0 then some pistaBiblioteca
  else if strcmp nomeSala salaEscritorio = 0 then some pistaEscritorio
  else if strcmp nomeSala salaQuartoMestre = 0 then some pistaQuartoMestre
  else if strcmp nomeSala salaCloset = 0 then some pistaCloset
  else if strcmp nomeSala salaJardim = 0 then some pistaJardim
  else if strcmp nomeSala salaPorao = 0 then some pistaPorao
  else none

/-- Room of the mansion (`struct Sala`); `nulo` is the null pointer. -/
inductive Sala where
  | nulo : Sala
  | no (nome : CStr) (esq : Sala) (dir : Sala) : Sala
  deriving DecidableEq, Repr

/-- First part of the loop body of `explorarSalas`: the clue of the room, when
`pistaParaSala` gives one, is inserted into the collected clues. -/
def coletar : Sala → PistaNode → PistaNode
  | .nulo, pistas => pistas
  | .no nome _ _, pistas =>
    match pistaParaSala nome with
    | some p => inserirPista pistas (some p)
    | none => pistas

/-- The `for` loop over `escolha`: its first byte that is not white space, 0
when there is none. -/
def primeiroNaoBranco : CStr → Nat
  | [] => 0
  | x :: xs => if !isspace x then x else primeiroNaoBranco xs

/-- Last part of the loop body of `explorarSalas`: the room of the next round for
the command byte `c`, `none` when the loop is left (`s` or `S`). A missing
direction and any other byte keep the room ("Opção inválida ou direção
inexistente"). The loop never holds the null room. -/
def decidir : Sala → Nat → Option Sala
  | .nulo, _ => none
  | .no nome esq dir, c =>
    if c = 115 ∨ c = 83 then none
    else if (c = 101 ∨ c = 69) ∧ esq ≠ .nulo then some esq
    else if (c = 100 ∨ c = 68) ∧ dir ≠ .nulo then some dir
    else some (.no nome esq dir)

/-- The `while (1)` loop of `explorarSalas` from the room `atual`. The input
is the list of buffers that the successive successful `fgets` calls deliver
(the empty list: `fgets` returns `NULL`). The result is the room in which the
loop is left, the collected clues, and the input left unread. -/
def explorarLaco (atual : Sala) (pistas : PistaNode) :
    List CStr → Sala × PistaNode × List CStr
  | [] => (atual, coletar atual pistas, [])
  | escolha :: resto =>
    match decidir atual (primeiroNaoBranco escolha) with
    | none => (atual, coletar atual pistas, resto)
    | some proxima => explorarLaco proxima (coletar atual pistas) resto

/-- Function `explorarSalas(inicio, &pistasColetadas, ht)`: the collected clues
afterwards and the input left unread. -/
def explorarSalas (inicio : Sala) (pistasColetadas : PistaNode) (entrada : List CStr) :
    PistaNode × List CStr :=
  match inicio with
  | .nulo => (pistasColetadas, entrada)
  | .no _ _ _ => (explorarLaco inicio pistasColetadas entrada).2

/-- State of the loop of `explorarSalas` when it waits for its next command
after the commands of the list: the current room and the collected clues,
the clue of the current room included; `none` when the loop has been left. -/
def estadoApos (atual : Sala) (pistas : PistaNode) : List CStr → Option (Sala × PistaNode)
  | [] => some (atual, coletar atual pistas)
  | escolha :: resto =>
    match decidir atual (primeiroNaoBranco escolha) with
    | none => none
    | some proxima => estadoApos proxima (coletar atual pistas) resto

/-- The command byte `c` does not move from the room: it asks for the left
child of a room that has none, for the right child of a room that has none,
or is none of the six command letters. -/
def semMovimento : Sala → Nat → Prop
  | .nulo, _ => False
  | .no _ esq dir, c =>
    ((c = 101 ∨ c = 69) ∧ esq = .nulo) ∨ ((c = 100 ∨ c = 68) ∧ dir = .nulo) ∨
      (c ≠ 115 ∧ c ≠ 83 ∧ c ≠ 101 ∧ c ≠ 69 ∧ c ≠ 100 ∧ c ≠ 68)

instance semMovimentoDecidable (a : Sala) (c : Nat) : Decidable (semMovimento a c) := by
  cases a <;> unfold semMovimento <;> infer_instance

/-- The mansion that `main` builds, from its root "Entrada". -/
def mansao : Sala :=
  .no salaEntrada
    (.no salaSalaDeEstar
      (.no salaBiblioteca .nulo .nulo)
      (.no salaEscritorio .nulo (.no salaCloset .nulo .nulo)))
    (.no salaCozinha
      (.no salaQuartoMestre (.no salaPorao .nulo .nulo) .nulo)
      (.no salaJardim .nulo .nulo))

/-! ### The fact table and the whole game of `mestre.c` -/

/-- Text "Mariana". -/
def nomeMariana : CStr := [77, 97, 114, 105, 97, 110, 97]

/-- Text "Ricardo". -/
def nomeRicardo : CStr := [82, 105, 99, 97, 114, 100, 111]

/-- Text "pega das molhadas" (UTF-8 bytes), the key of the second call of `main`. -/
def pistaPegaDasMolhadas : CStr :=
  [112, 101, 103, 97, 32, 100, 97, 115, 32, 109, 111, 108, 104, 97, 100, 97, 115]

/-- The directory after the ten `inserirNaHash` calls of `main`. -/
def tabelaPrincipal : HashTable :=
  aplicarInsercoes inicializarHash
    [(pistaEntrada, nomeMariana),
     (pistaPegaDasMolhadas, nomeMariana),
     (pistaJardim, nomeMariana),
     (pistaSalaDeEstar, nomeCarlos),
     (pistaCozinha, nomeRicardo),
     (pistaBiblioteca, nomeAna),
     (pistaEscritorio, nomeCarlos),
     (pistaQuartoMestre, nomeAna),
     (pistaCloset, nomeRicardo),
     (pistaPorao, nomeCarlos)]

/-- The game of `main`: the fixed mansion is explored from "Entrada" with an
empty clue index, then the verdict is given on the input left unread. -/
def main (entrada : List CStr) : Julgamento :=
  let r := explorarSalas mansao .nulo entrada
  (verificarSuspeitoFinal r.1 tabelaPrincipal r.2).1

/-- The suspect, if any, that the directory gives for each entry of the
in-order listing of the index. -/
def suspeitosDasPistas (t : PistaNode) (ht : HashTable) : List (Option CStr) :=
  (imprimirPistasInOrder t).map (fun p => encontrarSuspeito ht (some p))

/-! ### Visited rooms and the ordering invariant -/

/-- Clue that `pistaParaSala` gives for the name of a room; the null room has none. -/
def pistaDaSala : Sala → Option CStr
  | .nulo => none
  | .no nome _ _ => pistaParaSala nome

/-- Values of `atual` over the rounds of the loop of `explorarSalas` started in
`atual`: the start room, then the room after each command, up to the first
quit or the end of the input. -/
def percurso (atual : Sala) : List CStr → List Sala
  | [] => [atual]
  | escolha :: resto =>
    match decidir atual (primeiroNaoBranco escolha) with
    | none => [atual]
    | some proxima => atual :: percurso proxima resto

/-- Rooms visited by `explorarSalas`: none when the start room is null. -/
def salasVisitadas (inicio : Sala) (entrada : List CStr) : List Sala :=
  match inicio with
  | .nulo => []
  | .no _ _ _ => percurso inicio entrada

/-- Ordering invariant of the clue index: at every node, every text of the
left subtree sorts strictly before the text of the node and every text of the
right subtree strictly after it. -/
def OrdemBST : PistaNode → Prop
  | .nulo => True
  | .no esq p dir =>
    (∀ y ∈ imprimirPistasInOrder esq, strcmp y p < 0) ∧
      (∀ y ∈ imprimirPistasInOrder dir, strcmp p y < 0) ∧ OrdemBST esq ∧ OrdemBST dir

instance ordemBSTDecidable : (t : PistaNode) → Decidable (OrdemBST t)
  | .nulo => isTrue trivial
  | .no esq p dir =>
    have := ordemBSTDecidable esq
    have := ordemBSTDecidable dir
    inferInstanceAs (Decidable
      ((∀ y ∈ imprimirPistasInOrder esq, strcmp y p < 0) ∧
        (∀ y ∈ imprimirPistasInOrder dir, strcmp p y < 0) ∧ OrdemBST esq ∧ OrdemBST dir))

/-- Number of nodes of the clue index. -/
def tamanho : PistaNode → Nat
  | .nulo => 0
  | .no esq _ dir => tamanho esq + 1 + tamanho dir

/-- The listing with `x` put at its sorted position: before the first entry
that sorts after it. -/
def inserirNaListagem (x : CStr) : List CStr → List CStr
  | [] => [x]
  | y :: ys => if strcmp x y < 0 then x :: y :: ys else y :: inserirNaListagem x ys

/-! ### Items of the directory -/

/-- Every item of the table, bucket after bucket. -/
def todosItens (ht : HashTable) : List HashItem :=
  (List.finRange HASH_SIZE).flatMap ht.buckets

/-- Number of items of the table. -/
def numeroItens (ht : HashTable) : Nat :=
  (todosItens ht).length

/-- The item with its suspect replaced by `v` when its key is `k`. -/
def substituirSuspeito (k v : CStr) (it : HashItem) : HashItem :=
  if it.pista = k then { it with suspeito := v } else it

/-- Chain invariant of the table: every item sits in the bucket of its key,
and no key occurs twice in a chain. -/
def InvarianteTabela (ht : HashTable) : Prop :=
  (∀ i : Fin HASH_SIZE, ∀ it ∈ ht.buckets i, indice it.pista = i) ∧
    (∀ i : Fin HASH_SIZE, ((ht.buckets i).map HashItem.pista).Nodup)

/-! ### Position of the player in the mansion -/

/-- Left (`false`) or right (`true`) child of a room; null for the null room. -/
def filho : Sala → Bool → Sala
  | .nulo, _ => .nulo
  | .no _ esq dir, d => if d then dir else esq

/-- Room reached from `inicio` by a path of directions, null when the path
leaves the tree. -/
def descer (inicio : Sala) : List Bool → Sala
  | [] => inicio
  | d :: ds => descer (filho inicio d) ds

/-- Number of rooms on the longest way down from a room; 0 for the null room. -/
def altura : Sala → Nat
  | .nulo => 0
  | .no _ esq dir => 1 + max (altura esq) (altura dir)

/-- Direction of the move that the command byte `c` makes from the room, `none`
when the player quits or stays: left on `e` or `E` with a left child, right on
`d` or `D` with a right child. -/
def movimento : Sala → Nat → Option Bool
  | .nulo, _ => none
  | .no _ esq dir, c =>
    if c = 115 ∨ c = 83 then none
    else if (c = 101 ∨ c = 69) ∧ esq ≠ .nulo then some false
    else if (c = 100 ∨ c = 68) ∧ dir ≠ .nulo then some true
    else none

/-- Directions of the moves made by the loop of `explorarSalas` over the
commands, up to the first quit: the path from the start room to the current
room. -/
def movimentos (atual : Sala) : List CStr → List Bool
  | [] => []
  | escolha :: resto =>
    match decidir atual (primeiroNaoBranco escolha) with
    | none => []
    | some proxima =>
      (movimento atual (primeiroNaoBranco escolha)).toList ++ movimentos proxima resto

/-! ### Clue indexes that an exploration can end with -/

/-- Every clue index with which the loop of `explorarSalas`, started in the
room with the index `pistas`, can end: that of the room itself and those of
the runs that go on into its left or its right child. -/
def resultadosPossiveis : Sala → PistaNode → List PistaNode
  | .nulo, _ => []
  | .no nome esq dir, pistas =>
    coletar (.no nome esq dir) pistas ::
      (resultadosPossiveis esq (coletar (.no nome esq dir) pistas) ++
        resultadosPossiveis dir (coletar (.no nome esq dir) pistas))

end Mestre

namespace Aventureiro

/-- Room of the mansion of `aventureiro.c` (`struct Sala`): its name, its clue
(the empty text when it has none) and its two children; `nulo` is the null
pointer. The texts are taken to fit the fixed buffers of the struct. -/
inductive Sala where
  | nulo : Sala
  | no (nome : CStr) (pista : CStr) (esquerda : Sala) (direita : Sala) : Sala
  deriving DecidableEq, Repr

/-- Node of the clue tree of `aventureiro.c` (`struct PistaNode`). -/
inductive PistaNode where
  | nulo : PistaNode
  | no (esq : PistaNode) (conteudo : CStr) (dir : PistaNode) : PistaNode
  deriving DecidableEq, Repr

/-- Function `criarSala(nome, pista)`: a room without children; a `NULL` clue is stored
as the empty text. -/
def criarSala (nome : CStr) (pista : Option CStr) : Sala :=
  match pista with
  | some p => .no nome p .nulo .nulo
  | none => .no nome [] .nulo .nulo

/-- Function `inserirPista(raiz, conteudo)` of `aventureiro.c`: the returned root. -/
def inserirPista : PistaNode → Option CStr → PistaNode
  | raiz, none => raiz
  | .nulo, some conteudo =>
    if conteudo.length = 0 then .nulo else .no .nulo conteudo .nulo
  | .no esq c dir, some conteudo =>
    if conteudo.length = 0 then .no esq c dir
    else if strcmp conteudo c < 0 then .no (inserirPista esq (some conteudo)) c dir
    else .no esq c (inserirPista dir (some conteudo))

/-- Texts in the order `exibirPistas` prints them. -/
def exibirPistas : PistaNode → List CStr
  | .nulo => []
  | .no esq c dir => exibirPistas esq ++ c :: exibirPistas dir

/-- Call `inserirPista` with the same text `n` times in a row. -/
def inserirVezes (raiz : PistaNode) (conteudo : CStr) : Nat → PistaNode
  | 0 => raiz
  | n + 1 => inserirVezes (inserirPista raiz (some conteudo)) conteudo n

/-- First part of the loop body of `explorarSalasComPistas`: a room whose clue
is not empty has it inserted into the clue tree. -/
def coletar : Sala → PistaNode → PistaNode
  | .nulo, arvore => arvore
  | .no _ pista _ _, arvore =>
    if pista.length > 0 then inserirPista arvore (some pista) else arvore

/-- Last part of the loop body of `explorarSalasComPistas`: the room of the
next round for the character `opcao`, `none` when the function returns (`s`
or `S`, or the null room, on which the loop condition fails). -/
def decidir : Sala → Nat → Option Sala
  | .nulo, _ => none
  | .no nome pista esquerda direita, opcao =>
    if opcao = 101 ∨ opcao = 69 then
      if esquerda ≠ .nulo then some esquerda else some (.no nome pista esquerda direita)
    else if opcao = 100 ∨ opcao = 68 then
      if direita ≠ .nulo then some direita else some (.no nome pista esquerda direita)
    else if opcao = 115 ∨ opcao = 83 then none
    else some (.no nome pista esquerda direita)

/-- Function `explorarSalasComPistas(atual, &arvorePistas)` run on the characters that
the successive `scanf(" %c")` calls read: the clue tree when the function
returns or, for a list without `s`, when the list has been consumed. -/
def explorarSalasComPistas (atual : Sala) (arvorePistas : PistaNode) : List Nat → PistaNode
  | [] => coletar atual arvorePistas
  | opcao :: resto =>
    match decidir atual opcao with
    | none => coletar atual arvorePistas
    | some proxima => explorarSalasComPistas proxima (coletar atual arvorePistas) resto

/-- State of the loop of `explorarSalasComPistas` when it waits for its next
character after the characters of the list: the current room and the clue
tree, the clue of the current room included; `none` when it has returned. -/
def estadoApos (atual : Sala) (arvore : PistaNode) : List Nat → Option (Sala × PistaNode)
  | [] => some (atual, coletar atual arvore)
  | opcao :: resto =>
    match decidir atual opcao with
    | none => none
    | some proxima => estadoApos proxima (coletar atual arvore) resto

/-- The character `c` does not move from the room: it asks for the left child
of a room that has none, for the right child of a room that has none, or is
none of the six command letters. -/
def semMovimento : Sala → Nat → Prop
  | .nulo, _ => False
  | .no _ _ esquerda direita, c =>
    ((c = 101 ∨ c = 69) ∧ esquerda = .nulo) ∨ ((c = 100 ∨ c = 68) ∧ direita = .nulo) ∨
      (c ≠ 115 ∧ c ≠ 83 ∧ c ≠ 101 ∧ c ≠ 69 ∧ c ≠ 100 ∧ c ≠ 68)

instance semMovimentoDecidable (a : Sala) (c : Nat) : Decidable (semMovimento a c) := by
  cases a <;> unfold semMovimento <;> infer_instance

/-- Size of the buffer `conteudo` of a node (`char conteudo[100]`). -/
def TAM_CONTEUDO : Nat := 100

/-- The tree `depois` is the tree `antes` with every node in its place and one
null pointer replaced by a new leaf that holds `x`. -/
def acrescentaFolha (x : CStr) : PistaNode → PistaNode → Bool
  | .nulo, depois => decide (depois = .no .nulo x .nulo)
  | .no _ _ _, .nulo => false
  | .no esq c dir, .no esq2 c2 dir2 =>
    decide (c2 = c) &&
      ((acrescentaFolha x esq esq2 && decide (dir2 = dir)) ||
        (decide (esq2 = esq) && acrescentaFolha x dir dir2))

/-- Ordering of the clue tree of `aventureiro.c`, which keeps repeated texts:
at every node the texts of the left subtree sort strictly before the text of
the node, and no text of the right subtree sorts before it. -/
def OrdemComRepeticao : PistaNode → Prop
  | .nulo => True
  | .no esq c dir =>
    (∀ y ∈ exibirPistas esq, strcmp y c < 0) ∧
      (∀ y ∈ exibirPistas dir, ¬ strcmp y c < 0) ∧
      OrdemComRepeticao esq ∧ OrdemComRepeticao dir

instance ordemComRepeticaoDecidable : (t : PistaNode) → Decidable (OrdemComRepeticao t)
  | .nulo => isTrue trivial
  | .no esq c dir =>
    have := ordemComRepeticaoDecidable esq
    have := ordemComRepeticaoDecidable dir
    inferInstanceAs (Decidable
      ((∀ y ∈ exibirPistas esq, strcmp y c < 0) ∧
        (∀ y ∈ exibirPistas dir, ¬ strcmp y c < 0) ∧
        OrdemComRepeticao esq ∧ OrdemComRepeticao dir))

/-- The listing with `x` put before its first entry that sorts strictly after
`x`, so after every entry equal to `x`. -/
def inserirAposIguais (x : CStr) : List CStr → List CStr
  | [] => [x]
  | y :: ys => if strcmp x y < 0 then x :: y :: ys else y :: inserirAposIguais x ys

/-- Clue of a room, the empty text for the null room. -/
def pistaDaSala : Sala → CStr
  | .nulo => []
  | .no _ pista _ _ => pista

/-- Room name "Hall de Entrada" (UTF-8 bytes). -/
def nomeHallDeEntrada : CStr :=
  [72, 97, 108, 108, 32, 100, 101, 32, 69, 110, 116, 114, 97, 100, 97]

/-- Clue "Pegadas misteriosas" (UTF-8 bytes). -/
def pistaHallDeEntrada : CStr :=
  [80, 101, 103, 97, 100, 97, 115, 32, 109, 105, 115, 116, 101, 114, 105, 111, 115, 97, 115]

/-- Room name "Sala de Estar" (UTF-8 bytes). -/
def nomeSalaDeEstar : CStr :=
  [83, 97, 108, 97, 32, 100, 101, 32, 69, 115, 116, 97, 114]

/-- Clue "Um livro rasgado" (UTF-8 bytes). -/
def pistaSalaDeEstar : CStr :=
  [85, 109, 32, 108, 105, 118, 114, 111, 32, 114, 97, 115, 103, 97, 100, 111]

/-- Room name "Cozinha" (UTF-8 bytes). -/
def nomeCozinha : CStr :=
  [67, 111, 122, 105, 110, 104, 97]

/-- Clue "Faca fora do lugar" (UTF-8 bytes). -/
def pistaCozinha : CStr :=
  [70, 97, 99, 97, 32, 102, 111, 114, 97, 32, 100, 111, 32, 108, 117, 103, 97, 114]

/-- Room name "Biblioteca" (UTF-8 bytes). -/
def nomeBiblioteca : CStr :=
  [66, 105, 98, 108, 105, 111, 116, 101, 99, 97]

/-- Clue "Página arrancada de um diário" (UTF-8 bytes). -/
def pistaBiblioteca : CStr :=
  [80, 195, 161, 103, 105, 110, 97, 32, 97, 114, 114, 97, 110, 99, 97, 100, 97, 32, 100, 101, 32, 117, 109, 32, 100, 105, 195, 161, 114, 105, 111]

/-- Room name "Jardim" (UTF-8 bytes). -/
def nomeJardim : CStr :=
  [74, 97, 114, 100, 105, 109]

/-- Room name "Porão" (UTF-8 bytes). -/
def nomePorao : CStr :=
  [80, 111, 114, 195, 163, 111]

/-- Clue "Caixa secreta aberta" (UTF-8 bytes). -/
def pistaPorao : CStr :=
  [67, 97, 105, 120, 97, 32, 115, 101, 99, 114, 101, 116, 97, 32, 97, 98, 101, 114, 116, 97]

/-- The mansion that `main` of `aventureiro.c` builds, from "Hall de Entrada". -/
def mansao : Sala :=
  .no nomeHallDeEntrada pistaHallDeEntrada
    (.no nomeSalaDeEstar pistaSalaDeEstar
      (.no nomeBiblioteca pistaBiblioteca .nulo .nulo)
      (.no nomeJardim [] .nulo .nulo))
    (.no nomeCozinha pistaCozinha
      .nulo
      (.no nomePorao pistaPorao .nulo .nulo))

end Aventureiro

namespace Novato

/-- Room of the mansion of `novato,.c` (`struct Sala`); `nulo` is the null
pointer. The name is taken to fit the fixed buffer of the struct. -/
inductive Sala where
  | nulo : Sala
  | no (nome : CStr) (esquerda : Sala) (direita : Sala) : Sala
  deriving DecidableEq, Repr

/-- How a run of `explorarSalas` of `novato,.c` ends. -/
inductive Fim where
  /-- The loop condition fails: the room is null. -/
  | semSala : Fim
  /-- Message "Você chegou ao fim! Não há mais caminhos." -/
  | semCaminhos : Fim
  /-- Message "Saindo da mansão...", on `s` or `S`. -/
  | saiu : Fim
  /-- The function never returns: the input is at its end, so that `scanf` fails
  and leaves `escolha` as it is, and that character does not move from the
  room, so that every further round of the loop repeats the same state. -/
  | naoTermina : Fim
  deriving DecidableEq, Repr

/-- The `if` chain at the end of the loop body of `explorarSalas`: the room of
the next round for the character `escolha`, `none` when the function returns
on `s` or `S`. -/
def decidir (nome : CStr) (esquerda direita : Sala) (escolha : Nat) : Option Sala :=
  if escolha = 101 ∨ escolha = 69 then
    if esquerda ≠ .nulo then some esquerda else some (.no nome esquerda direita)
  else if escolha = 100 ∨ escolha = 68 then
    if direita ≠ .nulo then some direita else some (.no nome esquerda direita)
  else if escolha = 115 ∨ escolha = 83 then none
  else some (.no nome esquerda direita)

/-- The loop of `explorarSalas` once the input is at its end: `scanf`, whose
result the code does not test, fails on every round and `escolha` keeps the
value it has. A room without children ends the run; otherwise the same `if`
chain runs on the kept character: it goes on in the child it names, returns
on `s` or `S`, and on a character that keeps the room the loop runs for ever. -/
def aposFimDaEntrada (escolha : Nat) : Sala → Sala × Fim
  | .nulo => (.nulo, .semSala)
  | .no nome esquerda direita =>
    if esquerda = .nulo ∧ direita = .nulo then (.no nome esquerda direita, .semCaminhos)
    else if escolha = 101 ∨ escolha = 69 then
      if esquerda ≠ .nulo then aposFimDaEntrada escolha esquerda
      else (.no nome esquerda direita, .naoTermina)
    else if escolha = 100 ∨ escolha = 68 then
      if direita ≠ .nulo then aposFimDaEntrada escolha direita
      else (.no nome esquerda direita, .naoTermina)
    else if escolha = 115 ∨ escolha = 83 then (.no nome esquerda direita, .saiu)
    else (.no nome esquerda direita, .naoTermina)

/-- Function `explorarSalas(atual)` of `novato,.c`. The list holds the characters
that the successive `scanf(" %c")` calls read before the input ends, and
`escolha` is the content of the variable of that name, indeterminate at the
start and then the last character read. The result is the room in which the
run stops, how it ends, and the characters left unread. -/
def explorarSalas (atual : Sala) (escolha : Nat) : List Nat → Sala × Fim × List Nat
  | [] => ((aposFimDaEntrada escolha atual).1, (aposFimDaEntrada escolha atual).2, [])
  | lido :: resto =>
    match atual with
    | .nulo => (.nulo, .semSala, lido :: resto)
    | .no nome esquerda direita =>
      if esquerda = .nulo ∧ direita = .nulo then
        (.no nome esquerda direita, .semCaminhos, lido :: resto)
      else
        match decidir nome esquerda direita lido with
        | none => (.no nome esquerda direita, .saiu, resto)
        | some proxima => explorarSalas proxima lido resto

/-- The mansion that `main` of `novato,.c` builds, from "Hall de Entrada". -/
def mansao : Sala :=
  .no [72, 97, 108, 108, 32, 100, 101, 32, 69, 110, 116, 114, 97, 100, 97]
    (.no [83, 97, 108, 97, 32, 100, 101, 32, 69, 115, 116, 97, 114]
      (.no [66, 105, 98, 108, 105, 111, 116, 101, 99, 97] .nulo .nulo)
      (.no [74, 97, 114, 100, 105, 109] .nulo .nulo))
    (.no [67, 111, 122, 105, 110, 104, 97]
      .nulo
      (.no [80, 111, 114, 195, 163, 111] .nulo .nulo))

end Novato

/-- A listing is strictly ascending in `strcmp` order: every entry sorts
strictly before every later entry. -/
def Ascendente (l : List CStr) : Prop :=
  l.Pairwise (fun a b => strcmp a b < 0)

/-! ## Theorems -/

/-! ### `strcmp` is a strict total order on byte strings -/

theorem strcmp_self (a : CStr) : strcmp a a = 0 := by
  induction a with
  | nil => rfl
  | cons x xs ih => simp [strcmp, ih]

theorem strcmp_eq_zero_iff (a b : CStr) : strcmp a b = 0 ↔ a = b := by
  constructor
  · intro h
    induction a generalizing b with
    | nil =>
      cases b with
      | nil => rfl
      | cons y ys => simp [strcmp] at h
    | cons x xs ih =>
      cases b with
      | nil => simp [strcmp] at h
      | cons y ys =>
        simp only [strcmp] at h
        by_cases hxy : x = y
        · simp only [hxy, if_true] at h
          rw [hxy, ih ys h]
        · simp only [hxy, if_false] at h
          split at h <;> simp at h
  · rintro rfl
    exact strcmp_self a

theorem strcmp_neg_iff_swap_pos (a b : CStr) : strcmp a b < 0 ↔ 0 < strcmp b a := by
  induction a generalizing b with
  | nil => cases b <;> simp [strcmp]
  | cons x xs ih =>
    cases b with
    | nil => simp [strcmp]
    | cons y ys =>
      simp only [strcmp]
      by_cases hxy : x = y
      · subst hxy
        simpa using ih ys
      · have hyx : ¬ y = x := fun h => hxy h.symm
        simp only [hxy, hyx, if_false]
        rcases Nat.lt_or_gt_of_ne hxy with h | h
        · have h2 : ¬ y < x := Nat.not_lt.mpr (Nat.le_of_lt h)
          simp [h, h2]
        · have h2 : ¬ x < y := Nat.not_lt.mpr (Nat.le_of_lt h)
          simp [h, h2]

theorem strcmp_trans (a b c : CStr) (hab : strcmp a b < 0) (hbc : strcmp b c < 0) :
    strcmp a c < 0 := by
  induction a generalizing b c with
  | nil =>
    cases c with
    | nil => cases b <;> simp [strcmp] at hab hbc
    | cons z zs => simp [strcmp]
  | cons x xs ih =>
    cases b with
    | nil => simp [strcmp] at hab
    | cons y ys =>
      cases c with
      | nil => simp [strcmp] at hbc
      | cons z zs =>
        simp only [strcmp] at hab hbc ⊢
        by_cases hxy : x = y
        · subst hxy
          simp only [if_true] at hab
          by_cases hxz : x = z
          · subst hxz
            simp only [if_true] at hbc ⊢
            exact ih ys zs hab hbc
          · simp only [hxz, if_false] at hbc ⊢
            exact hbc
        · simp only [hxy, if_false] at hab
          have hlt : x < y := by
            by_contra h
            simp [h] at hab
          by_cases hyz : y = z
          · subst hyz
            simp [hxy, hlt]
          · simp only [hyz, if_false] at hbc
            have hlt2 : y < z := by
              by_contra h
              simp [h] at hbc
            have hxz : x < z := Nat.lt_trans hlt hlt2
            have hne : ¬ x = z := Nat.ne_of_lt hxz
            simp [hne, hxz]

theorem strcmp_irrefl (a : CStr) : ¬ strcmp a a < 0 := by
  simp [strcmp_self]

theorem ascendente_nodup (l : List CStr) (h : Ascendente l) : l.Nodup := by
  unfold Ascendente at h
  refine List.Pairwise.imp ?_ h
  intro a b hab heq
  subst heq
  exact strcmp_irrefl a hab

/-! ### The clue index of `mestre.c` -/

namespace Mestre

theorem inserirPista_none (t : PistaNode) : inserirPista t none = t := by
  cases t <;> rfl

theorem inserirPista_no (esq dir : PistaNode) (p x : CStr) :
    inserirPista (.no esq p dir) (some x) =
      if strcmp x p = 0 then .no esq p dir
      else if strcmp x p < 0 then .no (inserirPista esq (some x)) p dir
      else .no esq p (inserirPista dir (some x)) := rfl

theorem mem_inserirPista (t : PistaNode) (x y : CStr) :
    y ∈ imprimirPistasInOrder (inserirPista t (some x)) ↔
      y = x ∨ y ∈ imprimirPistasInOrder t := by
  induction t with
  | nulo => simp [inserirPista, criarPistaNode, imprimirPistasInOrder]
  | no esq p dir ihe ihd =>
    rw [inserirPista_no]
    by_cases h0 : strcmp x p = 0
    · have hxp : x = p := (strcmp_eq_zero_iff x p).mp h0
      simp only [h0, if_true, imprimirPistasInOrder, List.mem_append, List.mem_cons]
      subst hxp
      tauto
    · by_cases hlt : strcmp x p < 0
      · simp only [h0, hlt, if_false, if_true, imprimirPistasInOrder, List.mem_append,
          List.mem_cons, ihe]
        tauto
      · simp only [h0, hlt, if_false, imprimirPistasInOrder, List.mem_append,
          List.mem_cons, ihd]
        tauto

theorem inserirPista_ascendente (t : PistaNode) (x : CStr)
    (h : Ascendente (imprimirPistasInOrder t)) :
    Ascendente (imprimirPistasInOrder (inserirPista t (some x))) := by
  induction t with
  | nulo => simp [inserirPista, criarPistaNode, imprimirPistasInOrder, Ascendente]
  | no esq p dir ihe ihd =>
    unfold Ascendente at h ihe ihd
    simp only [imprimirPistasInOrder, List.pairwise_append, List.pairwise_cons,
      List.mem_cons] at h
    obtain ⟨he, ⟨hpd, hd⟩, hed⟩ := h
    rw [inserirPista_no]
    by_cases h0 : strcmp x p = 0
    · simp only [h0, if_true, Ascendente, imprimirPistasInOrder, List.pairwise_append,
        List.pairwise_cons, List.mem_cons]
      exact ⟨he, ⟨hpd, hd⟩, hed⟩
    · by_cases hlt : strcmp x p < 0
      · simp only [h0, hlt, if_false, if_true, Ascendente, imprimirPistasInOrder,
          List.pairwise_append, List.pairwise_cons, List.mem_cons]
        refine ⟨ihe he, ⟨hpd, hd⟩, ?_⟩
        intro a ha b hb
        rcases (mem_inserirPista esq x a).mp ha with rfl | ha
        · rcases hb with rfl | hb
          · exact hlt
          · exact strcmp_trans _ _ _ hlt (hpd b hb)
        · exact hed a ha b hb
      · have hgt : strcmp p x < 0 := by
          rw [strcmp_neg_iff_swap_pos]
          omega
        simp only [h0, hlt, if_false, Ascendente, imprimirPistasInOrder,
          List.pairwise_append, List.pairwise_cons, List.mem_cons]
        refine ⟨he, ⟨?_, ihd hd⟩, ?_⟩
        · intro b hb
          rcases (mem_inserirPista dir x b).mp hb with rfl | hb
          · exact hgt
          · exact hpd b hb
        · intro a ha b hb
          rcases hb with rfl | hb
          · exact hed a ha b (Or.inl rfl)
          · rcases (mem_inserirPista dir x b).mp hb with rfl | hb
            · exact strcmp_trans _ _ _ (hed a ha p (Or.inl rfl)) hgt
            · exact hed a ha b (Or.inr hb)

theorem inserirTodas_ascendente (pistas : List CStr) (t : PistaNode)
    (h : Ascendente (imprimirPistasInOrder t)) :
    Ascendente (imprimirPistasInOrder (inserirTodas t pistas)) := by
  induction pistas generalizing t with
  | nil => exact h
  | cons x xs ih => exact ih _ (inserirPista_ascendente t x h)

theorem inserirPista_twice (t : PistaNode) (x : CStr) :
    inserirPista (inserirPista t (some x)) (some x) = inserirPista t (some x) := by
  induction t with
  | nulo => simp [inserirPista, criarPistaNode, strcmp_self]
  | no esq p dir ihe ihd =>
    rw [inserirPista_no]
    by_cases h0 : strcmp x p = 0
    · simp only [h0, if_true]
      rw [inserirPista_no]
      simp [h0]
    · by_cases hlt : strcmp x p < 0
      · simp only [h0, hlt, if_false, if_true]
        rw [inserirPista_no]
        simp [h0, hlt, ihe]
      · simp only [h0, hlt, if_false]
        rw [inserirPista_no]
        simp [h0, hlt, ihd]

theorem inserirVezes_succ (t : PistaNode) (x : CStr) (n : Nat) :
    inserirVezes t x (n + 1) = inserirPista t (some x) := by
  induction n generalizing t with
  | zero => rfl
  | succ k ih =>
    show inserirVezes (inserirPista t (some x)) x (k + 1) = _
    rw [ih, inserirPista_twice]

theorem mem_inserirTodas (pistas : List CStr) (t : PistaNode) (y : CStr) :
    y ∈ imprimirPistasInOrder (inserirTodas t pistas) ↔
      y ∈ imprimirPistasInOrder t ∨ y ∈ pistas := by
  induction pistas generalizing t with
  | nil => simp [inserirTodas]
  | cons x xs ih =>
    show y ∈ imprimirPistasInOrder (inserirTodas (inserirPista t (some x)) xs) ↔ _
    rw [ih, mem_inserirPista, List.mem_cons]
    tauto

/-- C1. Inserting any finite list of clue texts one by one with `inserirPista`
into the empty index gives a tree whose in-order listing is strictly ascending
in `strcmp` order, and therefore has no duplicates; the listing holds exactly
the texts of the list. -/
theorem c1_inorder_estritamente_ascendente (pistas : List CStr) :
    Ascendente (imprimirPistasInOrder (inserirTodas .nulo pistas)) ∧
      (imprimirPistasInOrder (inserirTodas .nulo pistas)).Nodup ∧
      (∀ y : CStr, y ∈ imprimirPistasInOrder (inserirTodas .nulo pistas) ↔ y ∈ pistas) := by
  have h : Ascendente (imprimirPistasInOrder (inserirTodas .nulo pistas)) :=
    inserirTodas_ascendente pistas .nulo (by simp [imprimirPistasInOrder, Ascendente])
  refine ⟨h, ascendente_nodup _ h, ?_⟩
  intro y
  rw [mem_inserirTodas]
  simp [imprimirPistasInOrder]

/-- C2. For every clue index tree and every text, `n ≥ 1` consecutive calls of
`inserirPista` with that text leave the same tree, and the same in-order
listing, as a single call; in particular a second insertion changes nothing. -/
theorem c2_inserirPista_idempotente (t : PistaNode) (x : CStr) (n : Nat) (hn : 1 ≤ n) :
    inserirVezes t x n = inserirPista t (some x) ∧
      imprimirPistasInOrder (inserirVezes t x n) =
        imprimirPistasInOrder (inserirPista t (some x)) ∧
      inserirPista (inserirPista t (some x)) (some x) = inserirPista t (some x) := by
  obtain ⟨k, rfl⟩ : ∃ k, n = k + 1 := ⟨n - 1, by omega⟩
  rw [inserirVezes_succ]
  exact ⟨rfl, rfl, inserirPista_twice t x⟩

/-- Witness of C2: three insertions of "b" into the index holding "a" and "c". -/
theorem c2_inserirPista_idempotente_witness :
    1 ≤ 3 ∧
      inserirVezes (.no .nulo [97] (.no .nulo [99] .nulo)) [98] 3 =
        .no .nulo [97] (.no (.no .nulo [98] .nulo) [99] .nulo) :=
  ⟨by decide, (c2_inserirPista_idempotente (.no .nulo [97] (.no .nulo [99] .nulo)) [98] 3
    (by decide)).1.trans (by decide)⟩

end Mestre

/-! ### The suspect directory of `mestre.c` -/

namespace Mestre

theorem procurar_atualizar_eq (k v : CStr) (l l' : List HashItem)
    (h : atualizarNaLista k v l = some l') : procurarNaLista k l' = some v := by
  induction l generalizing l' with
  | nil => simp [atualizarNaLista] at h
  | cons cur prox ih =>
    simp only [atualizarNaLista] at h
    by_cases hc : strcmp cur.pista k = 0
    · simp only [hc, if_true, Option.some.injEq] at h
      subst h
      simp [procurarNaLista, hc]
    · simp only [hc, if_false, Option.map_eq_some'] at h
      obtain ⟨m, hm, rfl⟩ := h
      simp [procurarNaLista, hc, ih m hm]

theorem procurar_atualizar_ne (k v k' : CStr) (hne : k' ≠ k) (l l' : List HashItem)
    (h : atualizarNaLista k v l = some l') : procurarNaLista k' l' = procurarNaLista k' l := by
  induction l generalizing l' with
  | nil => simp [atualizarNaLista] at h
  | cons cur prox ih =>
    simp only [atualizarNaLista] at h
    by_cases hc : strcmp cur.pista k = 0
    · simp only [hc, if_true, Option.some.injEq] at h
      subst h
      have hk : cur.pista = k := (strcmp_eq_zero_iff _ _).mp hc
      have hc' : ¬ strcmp cur.pista k' = 0 := by
        rw [strcmp_eq_zero_iff, hk]
        exact fun e => hne e.symm
      simp [procurarNaLista, hc']
    · simp only [hc, if_false, Option.map_eq_some'] at h
      obtain ⟨m, hm, rfl⟩ := h
      simp [procurarNaLista, ih m hm]

theorem encontrar_inserir_eq (ht : HashTable) (k v : CStr) :
    encontrarSuspeito (inserirNaHash ht (some k) (some v)) (some k) = some v := by
  simp only [inserirNaHash, encontrarSuspeito]
  cases h : atualizarNaLista k v (ht.buckets (indice k)) with
  | none => simp [procurarNaLista, strcmp_self]
  | some l => simpa using procurar_atualizar_eq k v _ l h

theorem encontrar_inserir_ne (ht : HashTable) (k v k' : CStr) (hne : k' ≠ k) :
    encontrarSuspeito (inserirNaHash ht (some k) (some v)) (some k') =
      encontrarSuspeito ht (some k') := by
  simp only [inserirNaHash, encontrarSuspeito]
  have hkk : ¬ strcmp k k' = 0 := by
    rw [strcmp_eq_zero_iff]
    exact fun e => hne e.symm
  cases h : atualizarNaLista k v (ht.buckets (indice k)) with
  | none =>
    by_cases hi : indice k' = indice k
    · simp [hi, procurarNaLista, hkk]
    · simp [hi]
  | some l =>
    by_cases hi : indice k' = indice k
    · simp only [hi, if_true]
      exact procurar_atualizar_ne k v k' hne _ l h
    · simp [hi]

theorem aplicarInsercoes_snoc (ht : HashTable) (ops : List (CStr × CStr)) (kv : CStr × CStr) :
    aplicarInsercoes ht (ops ++ [kv]) =
      inserirNaHash (aplicarInsercoes ht ops) (some kv.1) (some kv.2) := by
  simp [aplicarInsercoes, List.foldl_append]

theorem ultimaAssociacao_snoc (ops : List (CStr × CStr)) (kv : CStr × CStr) (k : CStr) :
    ultimaAssociacao (ops ++ [kv]) k =
      if kv.1 = k then some kv.2 else ultimaAssociacao ops k := by
  by_cases h : kv.1 = k <;> simp [ultimaAssociacao, List.find?, h]

theorem ultimaAssociacao_none (ops : List (CStr × CStr)) (k : CStr)
    (h : ∀ kv ∈ ops, kv.1 ≠ k) : ultimaAssociacao ops k = none := by
  simp only [ultimaAssociacao, Option.map_eq_none', List.find?_eq_none, List.mem_reverse,
    decide_eq_true_eq]
  exact h

theorem encontrar_aplicarInsercoes (ops : List (CStr × CStr)) (k : CStr) :
    encontrarSuspeito (aplicarInsercoes inicializarHash ops) (some k) =
      ultimaAssociacao ops k := by
  induction ops using List.reverseRecOn with
  | nil => rfl
  | append_singleton l kv ih =>
    rw [aplicarInsercoes_snoc, ultimaAssociacao_snoc]
    by_cases h : kv.1 = k
    · simp only [h, if_true]
      exact encontrar_inserir_eq _ k kv.2
    · simp only [h, if_false]
      rw [encontrar_inserir_ne _ kv.1 kv.2 k (fun e => h e.symm), ih]

/-- C3. After any sequence of `inserirNaHash` calls with non-null arguments on
a table set up by `inicializarHash`, `encontrarSuspeito(k)` is the value of the
last call whose key is exactly `k`; it is `NULL` when no call used `k`; and on
any table a set on one key leaves the result of get on every other key as it was. -/
theorem c3_diretorio_correto (ops : List (CStr × CStr)) (k : CStr) :
    encontrarSuspeito (aplicarInsercoes inicializarHash ops) (some k) =
        ultimaAssociacao ops k ∧
      ((∀ kv ∈ ops, kv.1 ≠ k) →
        encontrarSuspeito (aplicarInsercoes inicializarHash ops) (some k) = none) ∧
      (∀ (ht : HashTable) (v k' : CStr), k' ≠ k →
        encontrarSuspeito (inserirNaHash ht (some k) (some v)) (some k') =
          encontrarSuspeito ht (some k')) := by
  refine ⟨encontrar_aplicarInsercoes ops k, ?_, ?_⟩
  · intro h
    rw [encontrar_aplicarInsercoes, ultimaAssociacao_none ops k h]
  · intro ht v k' hne
    exact encontrar_inserir_ne ht k v k' hne

end Mestre

/-! ### The verdict of `mestre.c` -/

namespace Mestre

theorem contar_eq_countP (t : PistaNode) (ht : HashTable) (s : CStr) :
    contarPistasParaSuspeito t ht s =
      ((imprimirPistasInOrder t).countP
        (fun p => decide (encontrarSuspeito ht (some p) = some s)) : Nat) := by
  induction t with
  | nulo => rfl
  | no esq p dir ihe ihd =>
    simp only [contarPistasParaSuspeito, imprimirPistasInOrder, List.countP_append,
      List.countP_cons, ihe, ihd]
    cases h : encontrarSuspeito ht (some p) with
    | none => simp
    | some r =>
      by_cases hr : strcmp r s = 0
      · have : r = s := (strcmp_eq_zero_iff r s).mp hr
        subst this
        simp [hr]
        ring
      · have hne : ¬ r = s := fun e => hr ((strcmp_eq_zero_iff r s).mpr e)
        simp [hr, hne]

theorem contar_nonneg (t : PistaNode) (ht : HashTable) (s : CStr) :
    0 ≤ contarPistasParaSuspeito t ht s := by
  rw [contar_eq_countP]
  exact Int.natCast_nonneg _

/-- C4. `contarPistasParaSuspeito` returns the number of clue texts of the index
that `encontrarSuspeito` resolves to a present suspect equal to the accused
name: the count of matching entries of the in-order listing, and equally of
the entries taken in any other order. On the index holding A, B, C with the
directory A to Carlos, B to Ana, C to Carlos it is 2 for "Carlos" and 1 for "Ana". -/
theorem c4_contagem_correta (t : PistaNode) (ht : HashTable) (s : CStr) :
    contarPistasParaSuspeito t ht s =
        ((imprimirPistasInOrder t).countP
          (fun p => decide (encontrarSuspeito ht (some p) = some s)) : Nat) ∧
      (∀ l : List CStr, l.Perm (imprimirPistasInOrder t) →
        contarPistasParaSuspeito t ht s =
          (l.countP (fun p => decide (encontrarSuspeito ht (some p) = some s)) : Nat)) ∧
      imprimirPistasInOrder indiceABC = [[65], [66], [67]] ∧
      contarPistasParaSuspeito indiceABC diretorioABC nomeCarlos = 2 ∧
      contarPistasParaSuspeito indiceABC diretorioABC nomeAna = 1 := by
  refine ⟨contar_eq_countP t ht s, ?_, by decide, by decide, by decide⟩
  intro l hl
  rw [contar_eq_countP, hl.countP_eq]

/-- C5. On a non-empty index and a line whose name is not blank,
`verificarSuspeitoFinal` reports "sufficient evidence" exactly when the tally
of the name is at least 2, and "insufficient evidence" exactly when it is 0 or 1. -/
theorem c5_limiar_do_veredito (t : PistaNode) (ht : HashTable) (acusado : CStr)
    (resto : List CStr) (ht0 : t ≠ .nulo)
    (hnome : pularBrancos (cortarNoNewline acusado) ≠ []) :
    ((verificarSuspeitoFinal t ht (acusado :: resto)).1.ehSuficiente = true ↔
        2 ≤ contarPistasParaSuspeito t ht (pularBrancos (cortarNoNewline acusado))) ∧
      ((verificarSuspeitoFinal t ht (acusado :: resto)).1.ehInsuficiente = true ↔
        (contarPistasParaSuspeito t ht (pularBrancos (cortarNoNewline acusado)) = 0 ∨
          contarPistasParaSuspeito t ht (pularBrancos (cortarNoNewline acusado)) = 1)) := by
  have h0 := contar_nonneg t ht (pularBrancos (cortarNoNewline acusado))
  cases t with
  | nulo => exact absurd rfl ht0
  | no esq p dir =>
    by_cases hc : contarPistasParaSuspeito (.no esq p dir) ht
        (pularBrancos (cortarNoNewline acusado)) ≥ 2
    · have hv : verificarSuspeitoFinal (.no esq p dir) ht (acusado :: resto) =
          (.suficiente (pularBrancos (cortarNoNewline acusado))
            (contarPistasParaSuspeito (.no esq p dir) ht
              (pularBrancos (cortarNoNewline acusado))), resto) := by
        simp only [verificarSuspeitoFinal, hnome, hc, if_false, if_true]
      rw [hv]
      exact ⟨⟨fun _ => hc, fun _ => rfl⟩, ⟨fun h => (by cases h), fun h => (by omega)⟩⟩
    · have hv : verificarSuspeitoFinal (.no esq p dir) ht (acusado :: resto) =
          (.insuficiente (pularBrancos (cortarNoNewline acusado))
            (contarPistasParaSuspeito (.no esq p dir) ht
              (pularBrancos (cortarNoNewline acusado))), resto) := by
        simp only [verificarSuspeitoFinal, hnome, hc, if_false]
      rw [hv]
      exact ⟨⟨fun h => (by cases h), fun h => absurd h hc⟩, ⟨fun _ => (by omega), fun _ => rfl⟩⟩

/-- Witness of C5: on the index A, B, C the line "Carlos" and a newline is
answered with the sufficient verdict, its tally being 2. -/
theorem c5_limiar_do_veredito_witness :
    (verificarSuspeitoFinal indiceABC diretorioABC
        [[67, 97, 114, 108, 111, 115, 10]]).1.ehSuficiente = true ∧
      (verificarSuspeitoFinal indiceABC diretorioABC
        [[32, 65, 110, 97, 10]]).1.ehInsuficiente = true :=
  ⟨(c5_limiar_do_veredito indiceABC diretorioABC [67, 97, 114, 108, 111, 115, 10] []
      (by decide) (by decide)).1.mpr (by decide),
    (c5_limiar_do_veredito indiceABC diretorioABC [32, 65, 110, 97, 10] []
      (by decide) (by decide)).2.mpr (by decide)⟩

/-- C6. On the empty index `contarPistasParaSuspeito` is 0 for every directory
and name, and `verificarSuspeitoFinal` gives the "no clue collected" report,
which is not the sufficient one, whatever the input, and leaves the input unread. -/
theorem c6_indice_vazio (ht : HashTable) (s : CStr) (entrada : List CStr) :
    contarPistasParaSuspeito .nulo ht s = 0 ∧
      verificarSuspeitoFinal .nulo ht entrada = (.semPistas, entrada) ∧
      (verificarSuspeitoFinal .nulo ht entrada).1.ehSuficiente = false :=
  ⟨rfl, rfl, rfl⟩

end Mestre

/-! ### Exploration in `mestre.c` -/

namespace Mestre

theorem coletar_coletar (a : Sala) (p : PistaNode) : coletar a (coletar a p) = coletar a p := by
  cases a with
  | nulo => rfl
  | no nome esq dir =>
    simp only [coletar]
    cases pistaParaSala nome with
    | none => rfl
    | some x => exact inserirPista_twice p x

theorem estadoApos_snoc (cmds : List CStr) (inicio : Sala) (pistas0 : PistaNode)
    (escolha : CStr) :
    estadoApos inicio pistas0 (cmds ++ [escolha]) =
      (estadoApos inicio pistas0 cmds).bind (fun st =>
        (decidir st.1 (primeiroNaoBranco escolha)).map (fun prox => (prox, coletar prox st.2))) := by
  induction cmds generalizing inicio pistas0 with
  | nil =>
    simp only [List.nil_append, estadoApos, Option.some_bind]
    cases decidir inicio (primeiroNaoBranco escolha) <;> rfl
  | cons c cs ih =>
    simp only [List.cons_append, estadoApos]
    cases decidir inicio (primeiroNaoBranco c) with
    | none => rfl
    | some prox => exact ih prox (coletar inicio pistas0)

theorem estadoApos_coletado (cmds : List CStr) (inicio : Sala) (pistas0 : PistaNode)
    (atual : Sala) (pistas : PistaNode)
    (h : estadoApos inicio pistas0 cmds = some (atual, pistas)) :
    coletar atual pistas = pistas := by
  induction cmds generalizing inicio pistas0 with
  | nil =>
    simp only [estadoApos, Option.some.injEq, Prod.mk.injEq] at h
    obtain ⟨rfl, rfl⟩ := h
    exact coletar_coletar _ _
  | cons c cs ih =>
    simp only [estadoApos] at h
    cases hd : decidir inicio (primeiroNaoBranco c) with
    | none => simp [hd] at h
    | some prox =>
      simp only [hd] at h
      exact ih prox (coletar inicio pistas0) h

theorem decidir_semMovimento (a : Sala) (c : Nat) (h : semMovimento a c) :
    decidir a c = some a := by
  cases a with
  | nulo => exact absurd h (by simp [semMovimento])
  | no nome esq dir =>
    simp only [semMovimento] at h
    simp only [decidir]
    rcases h with ⟨hc, he⟩ | ⟨hc, hd⟩ | ⟨h1, h2, h3, h4, h5, h6⟩
    · subst he
      rcases hc with rfl | rfl <;> simp
    · subst hd
      rcases hc with rfl | rfl <;> simp
    · simp [h1, h2, h3, h4, h5, h6]

theorem explorarLaco_coletar (a : Sala) (p : PistaNode) (l : List CStr) :
    explorarLaco a (coletar a p) l = explorarLaco a p l := by
  cases l with
  | nil => simp [explorarLaco, coletar_coletar]
  | cons c cs => simp [explorarLaco, coletar_coletar]

theorem explorarLaco_append (cmds : List CStr) (inicio : Sala) (pistas0 : PistaNode)
    (atual : Sala) (pistas : PistaNode) (resto : List CStr)
    (h : estadoApos inicio pistas0 cmds = some (atual, pistas)) :
    explorarLaco inicio pistas0 (cmds ++ resto) = explorarLaco atual pistas resto := by
  induction cmds generalizing inicio pistas0 with
  | nil =>
    simp only [estadoApos, Option.some.injEq, Prod.mk.injEq] at h
    obtain ⟨rfl, rfl⟩ := h
    rw [List.nil_append, explorarLaco_coletar]
  | cons c cs ih =>
    simp only [estadoApos] at h
    cases hd : decidir inicio (primeiroNaoBranco c) with
    | none => simp [hd] at h
    | some prox =>
      simp only [hd] at h
      simp only [List.cons_append, explorarLaco, hd]
      exact ih prox (coletar inicio pistas0) h

/-- C7. In every state that `explorarSalas` reaches from its start room, a
command for the left child of a room without one, for the right child of a
room without one, or an invalid command keeps the current room, and the clue
index after the loop has captured the clue of the room again is the same tree:
the state at the next prompt is the state before the command, and the run
ends as it does with that command left out of the input. -/
theorem c7_fronteira_de_navegacao (inicio : Sala) (pistas0 : PistaNode) (cmds : List CStr)
    (atual : Sala) (pistas : PistaNode) (escolha : CStr)
    (halc : estadoApos inicio pistas0 cmds = some (atual, pistas))
    (hsem : semMovimento atual (primeiroNaoBranco escolha)) :
    decidir atual (primeiroNaoBranco escolha) = some atual ∧
      coletar atual pistas = pistas ∧
      estadoApos inicio pistas0 (cmds ++ [escolha]) = some (atual, pistas) ∧
      (∀ resto : List CStr,
        explorarLaco inicio pistas0 (cmds ++ escolha :: resto) =
          explorarLaco inicio pistas0 (cmds ++ resto)) := by
  have hd := decidir_semMovimento atual _ hsem
  have hc := estadoApos_coletado cmds inicio pistas0 atual pistas halc
  refine ⟨hd, hc, ?_, ?_⟩
  · rw [estadoApos_snoc, halc]
    simp [hd, hc]
  · intro resto
    rw [explorarLaco_append cmds inicio pistas0 atual pistas _ halc,
      explorarLaco_append cmds inicio pistas0 atual pistas _ halc]
    simp only [explorarLaco, hd]
    exact explorarLaco_coletar atual pistas resto

/-- Witness of C7: in the mansion of `main`, after the command "e" the player
is in "Sala de Estar" with two clues; in "Biblioteca", reached by a second "e",
which has no child, the command "d" changes nothing. -/
theorem c7_fronteira_de_navegacao_witness :
    estadoApos mansao .nulo [[101, 10], [101, 10]] =
        some (.no salaBiblioteca .nulo .nulo,
          .no (.no .nulo pistaBiblioteca .nulo) pistaEntrada (.no .nulo pistaSalaDeEstar .nulo)) ∧
      estadoApos mansao .nulo ([[101, 10], [101, 10]] ++ [[100, 10]]) =
        some (.no salaBiblioteca .nulo .nulo,
          .no (.no .nulo pistaBiblioteca .nulo) pistaEntrada (.no .nulo pistaSalaDeEstar .nulo)) :=
  ⟨by decide,
    (c7_fronteira_de_navegacao mansao .nulo [[101, 10], [101, 10]]
      (.no salaBiblioteca .nulo .nulo)
      (.no (.no .nulo pistaBiblioteca .nulo) pistaEntrada (.no .nulo pistaSalaDeEstar .nulo))
      [100, 10] (by decide) (by decide)).2.2.1⟩

end Mestre

/-! ### The clue tree and the exploration of `aventureiro.c` -/

namespace Aventureiro

theorem av_inserirPista_none (t : PistaNode) : inserirPista t none = t := by
  cases t <;> rfl

theorem inserirPista_vazia (t : PistaNode) : inserirPista t (some []) = t := by
  cases t <;> simp [inserirPista]

theorem length_ne_zero_of_ne_nil (x : CStr) (hx : x ≠ []) : ¬ x.length = 0 := by
  intro h
  exact hx (List.length_eq_zero.mp h)

theorem inserirPista_perm (t : PistaNode) (x : CStr) (hx : x ≠ []) :
    (exibirPistas (inserirPista t (some x))).Perm (x :: exibirPistas t) := by
  have hl := length_ne_zero_of_ne_nil x hx
  induction t with
  | nulo => simp [inserirPista, hl, exibirPistas]
  | no esq c dir ihe ihd =>
    simp only [inserirPista, hl, if_false]
    by_cases hlt : strcmp x c < 0
    · simp only [hlt, if_true, exibirPistas]
      exact (ihe.append_right _).trans (by simp)
    · simp only [hlt, if_false, exibirPistas]
      have h1 : (exibirPistas esq ++ c :: exibirPistas (inserirPista dir (some x))).Perm
          (exibirPistas esq ++ c :: x :: exibirPistas dir) :=
        List.Perm.append_left _ (List.Perm.cons c ihd)
      have h2 : (exibirPistas esq ++ c :: x :: exibirPistas dir).Perm
          (x :: (exibirPistas esq ++ c :: exibirPistas dir)) := by
        have h3 : (exibirPistas esq ++ c :: x :: exibirPistas dir) =
            ((exibirPistas esq ++ [c]) ++ x :: exibirPistas dir) := by simp
        have h4 : (exibirPistas esq ++ c :: exibirPistas dir) =
            ((exibirPistas esq ++ [c]) ++ exibirPistas dir) := by simp
        rw [h3, h4]
        exact List.perm_middle
      exact h1.trans h2

theorem count_inserirVezes (x : CStr) (hx : x ≠ []) (n : Nat) (t : PistaNode) :
    (exibirPistas (inserirVezes t x n)).countP (fun y => decide (y = x)) =
      (exibirPistas t).countP (fun y => decide (y = x)) + n := by
  induction n generalizing t with
  | zero => rfl
  | succ k ih =>
    show (exibirPistas (inserirVezes (inserirPista t (some x)) x k)).countP _ = _
    rw [ih, (inserirPista_perm t x hx).countP_eq]
    simp only [List.countP_cons, decide_True, if_true]
    omega

theorem coletar_perm (a : Sala) (arvore : PistaNode) (h : pistaDaSala a ≠ []) :
    (exibirPistas (coletar a arvore)).Perm (pistaDaSala a :: exibirPistas arvore) := by
  cases a with
  | nulo => exact absurd rfl h
  | no nome pista e d =>
    simp only [pistaDaSala] at h ⊢
    have hl : pista.length > 0 := List.length_pos.mpr h
    simp only [coletar, hl, if_true]
    exact inserirPista_perm arvore pista h

theorem coletar_sem_pista (a : Sala) (arvore : PistaNode) (h : pistaDaSala a = []) :
    coletar a arvore = arvore := by
  cases a with
  | nulo => rfl
  | no nome pista e d =>
    simp only [pistaDaSala] at h
    subst h
    simp [coletar]

theorem av_estadoApos_snoc (cmds : List Nat) (inicio : Sala) (arv0 : PistaNode) (c : Nat) :
    estadoApos inicio arv0 (cmds ++ [c]) =
      (estadoApos inicio arv0 cmds).bind (fun st =>
        (decidir st.1 c).map (fun prox => (prox, coletar prox st.2))) := by
  induction cmds generalizing inicio arv0 with
  | nil =>
    simp only [List.nil_append, estadoApos, Option.some_bind]
    cases decidir inicio c <;> rfl
  | cons o os ih =>
    simp only [List.cons_append, estadoApos]
    cases decidir inicio o with
    | none => rfl
    | some prox => exact ih prox (coletar inicio arv0)

theorem av_estadoApos_coletado (cmds : List Nat) (inicio : Sala) (arv0 : PistaNode)
    (atual : Sala) (arvore : PistaNode)
    (h : estadoApos inicio arv0 cmds = some (atual, arvore)) (hp : pistaDaSala atual ≠ []) :
    pistaDaSala atual ∈ exibirPistas arvore := by
  induction cmds generalizing inicio arv0 with
  | nil =>
    simp only [estadoApos, Option.some.injEq, Prod.mk.injEq] at h
    obtain ⟨rfl, rfl⟩ := h
    exact (coletar_perm _ arv0 hp).mem_iff.mpr (List.mem_cons_self _ _)
  | cons o os ih =>
    simp only [estadoApos] at h
    cases hd : decidir inicio o with
    | none => simp [hd] at h
    | some prox =>
      simp only [hd] at h
      exact ih prox (coletar inicio arv0) h

theorem av_decidir_semMovimento (a : Sala) (c : Nat) (h : semMovimento a c) :
    decidir a c = some a := by
  cases a with
  | nulo => exact absurd h (by simp [semMovimento])
  | no nome pista e d =>
    simp only [semMovimento] at h
    simp only [decidir]
    rcases h with ⟨hc, he⟩ | ⟨hc, hd⟩ | ⟨h1, h2, h3, h4, h5, h6⟩
    · subst he
      rcases hc with rfl | rfl <;> simp
    · subst hd
      rcases hc with rfl | rfl <;> simp
    · simp [h1, h2, h3, h4, h5, h6]

/-- Counterexample to C10 as stated: in the hall of the mansion of `main` the
invalid command "x" keeps the room, but the listing of collected clues goes
from one entry to two; the same happens in "Cozinha", which has no left
child, on the command "e"; the run "x", "s" ends with two entries where the
run "s" ends with one. -/
theorem c10_listagem_contraexemplo :
    semMovimento mansao 120 ∧
      (estadoApos mansao .nulo []).map (fun st => exibirPistas st.2) =
        some [pistaHallDeEntrada] ∧
      (estadoApos mansao .nulo ([] ++ [120])).map (fun st => exibirPistas st.2) =
        some [pistaHallDeEntrada, pistaHallDeEntrada] ∧
      (estadoApos mansao .nulo [100]).map (fun st => exibirPistas st.2) =
        some [pistaCozinha, pistaHallDeEntrada] ∧
      (estadoApos mansao .nulo ([100] ++ [101])).map (fun st => exibirPistas st.2) =
        some [pistaCozinha, pistaCozinha, pistaHallDeEntrada] ∧
      exibirPistas (explorarSalasComPistas mansao .nulo [115]) = [pistaHallDeEntrada] ∧
      exibirPistas (explorarSalasComPistas mansao .nulo [120, 115]) =
        [pistaHallDeEntrada, pistaHallDeEntrada] := by
  decide

/-- C10, amended. In every state that `explorarSalasComPistas` reaches from its
start room, an invalid command or a move in a direction without a child keeps
the current room and does not touch the clue tree; the capture that the loop
then repeats adds no new text to the listing: the listing is exactly as before
when the room has no clue, and otherwise gains one more copy of the clue of
the room. -/
theorem c10_comando_sem_movimento (inicio : Sala) (arv0 : PistaNode) (cmds : List Nat)
    (atual : Sala) (arvore : PistaNode) (c : Nat)
    (halc : estadoApos inicio arv0 cmds = some (atual, arvore))
    (hsem : semMovimento atual c) :
    decidir atual c = some atual ∧
      estadoApos inicio arv0 (cmds ++ [c]) = some (atual, coletar atual arvore) ∧
      (pistaDaSala atual = [] → coletar atual arvore = arvore) ∧
      (pistaDaSala atual ≠ [] →
        (exibirPistas (coletar atual arvore)).Perm (pistaDaSala atual :: exibirPistas arvore)) ∧
      (∀ y : CStr, y ∈ exibirPistas (coletar atual arvore) ↔ y ∈ exibirPistas arvore) := by
  have hd := av_decidir_semMovimento atual c hsem
  refine ⟨hd, ?_, coletar_sem_pista atual arvore, coletar_perm atual arvore, ?_⟩
  · rw [av_estadoApos_snoc, halc]
    simp [hd]
  · intro y
    by_cases hp : pistaDaSala atual = []
    · rw [coletar_sem_pista atual arvore hp]
    · rw [(coletar_perm atual arvore hp).mem_iff, List.mem_cons]
      constructor
      · rintro (rfl | h)
        · exact av_estadoApos_coletado cmds inicio arv0 atual arvore halc hp
        · exact h
      · exact Or.inr

/-- Witness of C10, amended: in "Jardim", a room without clue and without
children reached by "e" and "d", the command "e" leaves room and tree as they
were. -/
theorem c10_comando_sem_movimento_witness :
    estadoApos mansao .nulo ([101, 100] ++ [101]) = estadoApos mansao .nulo [101, 100] ∧
      (estadoApos mansao .nulo [101, 100]).map (fun st => exibirPistas st.2) =
        some [pistaHallDeEntrada, pistaSalaDeEstar] :=
  ⟨((c10_comando_sem_movimento mansao .nulo [101, 100] (.no nomeJardim [] .nulo .nulo)
        (.no .nulo pistaHallDeEntrada (.no .nulo pistaSalaDeEstar .nulo)) 101
        (by decide) (by decide)).2.1).trans (by decide),
    by decide⟩

end Aventureiro

/-! ### The empty clue -/

theorem pistaParaSala_nao_vazia (nome p : CStr) (h : Mestre.pistaParaSala nome = some p) :
    p ≠ [] := by
  unfold Mestre.pistaParaSala at h
  split_ifs at h <;> simp only [Option.some.injEq] at h <;> subst h <;> decide

/-- Counterexample to C9 as stated: `inserirPista` of `mestre.c` called with the
empty string on the empty index creates a node with the empty text. -/
theorem c9_pista_vazia_contraexemplo :
    Mestre.inserirPista .nulo (some []) ≠ .nulo ∧
      Mestre.imprimirPistasInOrder (Mestre.inserirPista .nulo (some [])) = [[]] := by
  decide

/-- C9, amended. In `mestre.c` `inserirPista` is a no-op for a `NULL` text only:
the empty string is recorded like any other text, and the exploration never
passes it, as `pistaParaSala` gives no empty clue. The no-op on the empty
string is that of `inserirPista` of `aventureiro.c`, for `NULL` as well. -/
theorem c9_pista_vazia (t : Mestre.PistaNode) (u : Aventureiro.PistaNode) :
    Mestre.inserirPista t none = t ∧
      [] ∈ Mestre.imprimirPistasInOrder (Mestre.inserirPista t (some [])) ∧
      (∀ nome p : CStr, Mestre.pistaParaSala nome = some p → p ≠ []) ∧
      Aventureiro.inserirPista u (some []) = u ∧
      Aventureiro.inserirPista u none = u :=
  ⟨Mestre.inserirPista_none t, (Mestre.mem_inserirPista t [] []).mpr (Or.inl rfl),
    pistaParaSala_nao_vazia, Aventureiro.inserirPista_vazia u, Aventureiro.av_inserirPista_none u⟩

/-! ### The fixed game of `mestre.c` -/

set_option maxRecDepth 100000

namespace Mestre

theorem contar_eq_countP_suspeitos (t : PistaNode) (ht : HashTable) (s : CStr) :
    contarPistasParaSuspeito t ht s =
      ((suspeitosDasPistas t ht).countP (fun o => decide (o = some s)) : Nat) := by
  rw [contar_eq_countP, suspeitosDasPistas, List.countP_map]
  rfl

theorem countP_le_of_forall_mem (l : List (Option CStr)) (k : Nat)
    (h : ∀ x ∈ l, l.countP (fun o => decide (o = x)) ≤ k) (s : CStr) :
    l.countP (fun o => decide (o = some s)) ≤ k := by
  by_cases hs : some s ∈ l
  · exact h (some s) hs
  · have h0 : l.countP (fun o => decide (o = some s)) = 0 := by
      rw [List.countP_eq_zero]
      intro a ha
      simp only [decide_eq_true_eq]
      intro e
      exact hs (e ▸ ha)
    omega

/-- C11. In the game of `main`, the root "Entrada" has the clue "pegada
lamacenta", bound to "Mariana"; the commands left, quit end the exploration in
"Sala de Estar", whose clue "taça com manchas de vinho" is bound to "Carlos";
the in-order listing is then exactly these two clues; accusing "Mariana"
tallies 1 and is answered with the insufficient verdict; and no name has a
tally of 2 in this run. -/
theorem c11_cenario_entrada_sala_de_estar (s : CStr) :
    pistaParaSala salaEntrada = some pistaEntrada ∧
      encontrarSuspeito tabelaPrincipal (some pistaEntrada) = some nomeMariana ∧
      (explorarLaco mansao .nulo [[101, 10], [115, 10]]).1 =
        .no salaSalaDeEstar (.no salaBiblioteca .nulo .nulo)
          (.no salaEscritorio .nulo (.no salaCloset .nulo .nulo)) ∧
      pistaParaSala salaSalaDeEstar = some pistaSalaDeEstar ∧
      encontrarSuspeito tabelaPrincipal (some pistaSalaDeEstar) = some nomeCarlos ∧
      imprimirPistasInOrder (explorarSalas mansao .nulo [[101, 10], [115, 10]]).1 =
        [pistaEntrada, pistaSalaDeEstar] ∧
      contarPistasParaSuspeito (explorarSalas mansao .nulo [[101, 10], [115, 10]]).1
        tabelaPrincipal nomeMariana = 1 ∧
      main [[101, 10], [115, 10], [77, 97, 114, 105, 97, 110, 97, 10]] =
        .insuficiente nomeMariana 1 ∧
      contarPistasParaSuspeito (explorarSalas mansao .nulo [[101, 10], [115, 10]]).1
        tabelaPrincipal s < 2 := by
  refine ⟨by decide, by decide, by decide, by decide, by decide, by decide, by decide,
    by decide, ?_⟩
  rw [contar_eq_countP_suspeitos]
  have h := countP_le_of_forall_mem
    (suspeitosDasPistas (explorarSalas mansao .nulo [[101, 10], [115, 10]]).1 tabelaPrincipal)
    1 (by decide) s
  omega

/-- C12. Every clue that `pistaParaSala` gives for a room name has a suspect in
the directory built by the ten `inserirNaHash` calls of `main`, and in every
index that holds the clue it counts for the tally of that suspect. -/
theorem c12_toda_pista_tem_suspeito (nome p : CStr) (h : pistaParaSala nome = some p) :
    ∃ s : CStr, encontrarSuspeito tabelaPrincipal (some p) = some s ∧
      ∀ t : PistaNode, p ∈ imprimirPistasInOrder t →
        1 ≤ contarPistasParaSuspeito t tabelaPrincipal s := by
  have hs : ∃ s : CStr, encontrarSuspeito tabelaPrincipal (some p) = some s := by
    unfold pistaParaSala at h
    split_ifs at h <;> simp only [Option.some.injEq] at h <;> subst h
    · exact ⟨nomeMariana, by decide⟩
    · exact ⟨nomeCarlos, by decide⟩
    · exact ⟨nomeRicardo, by decide⟩
    · exact ⟨nomeAna, by decide⟩
    · exact ⟨nomeCarlos, by decide⟩
    · exact ⟨nomeAna, by decide⟩
    · exact ⟨nomeRicardo, by decide⟩
    · exact ⟨nomeMariana, by decide⟩
    · exact ⟨nomeCarlos, by decide⟩
  obtain ⟨s, hs⟩ := hs
  refine ⟨s, hs, ?_⟩
  intro t hp
  rw [contar_eq_countP]
  have hpos : 0 < (imprimirPistasInOrder t).countP
      (fun q => decide (encontrarSuspeito tabelaPrincipal (some q) = some s)) := by
    rw [List.countP_pos_iff]
    exact ⟨p, hp, by simp [hs]⟩
  omega

/-- Witness of C12: the clue of "Jardim" is bound to "Mariana". -/
theorem c12_toda_pista_tem_suspeito_witness :
    pistaParaSala salaJardim = some pistaJardim ∧
      ∃ s : CStr, encontrarSuspeito tabelaPrincipal (some pistaJardim) = some s ∧
        ∀ t : PistaNode, pistaJardim ∈ imprimirPistasInOrder t →
          1 ≤ contarPistasParaSuspeito t tabelaPrincipal s :=
  ⟨by decide, c12_toda_pista_tem_suspeito salaJardim pistaJardim (by decide)⟩

/-- C13. On a non-empty index, a line whose text before the newline is empty
or holds white space only is rejected as an invalid name: the report carries
no tally and is neither the sufficient nor the insufficient verdict. -/
theorem c13_acusacao_em_branco (t : PistaNode) (ht : HashTable) (acusado : CStr)
    (resto : List CStr) (ht0 : t ≠ .nulo)
    (hbranco : ∀ c ∈ cortarNoNewline acusado, isspace c = true) :
    verificarSuspeitoFinal t ht (acusado :: resto) = (.nomeInvalido, resto) ∧
      (verificarSuspeitoFinal t ht (acusado :: resto)).1.ehSuficiente = false ∧
      (verificarSuspeitoFinal t ht (acusado :: resto)).1.ehInsuficiente = false := by
  have hp : pularBrancos (cortarNoNewline acusado) = [] := by
    unfold pularBrancos
    rw [List.dropWhile_eq_nil_iff]
    exact hbranco
  have hv : verificarSuspeitoFinal t ht (acusado :: resto) = (.nomeInvalido, resto) := by
    cases t with
    | nulo => exact absurd rfl ht0
    | no esq p dir => simp only [verificarSuspeitoFinal, hp, if_true]
  rw [hv]
  exact ⟨rfl, rfl, rfl⟩

/-- Witness of C13: on the index A, B, C the line of two spaces, a tab and a
newline is rejected. -/
theorem c13_acusacao_em_branco_witness :
    verificarSuspeitoFinal indiceABC diretorioABC [[32, 32, 9, 10]] = (.nomeInvalido, []) :=
  (c13_acusacao_em_branco indiceABC diretorioABC [32, 32, 9, 10] [] (by decide)
    (by decide)).1

end Mestre

/-! ### Clue capture and the ordering invariant in `mestre.c` -/

namespace Mestre

theorem mem_coletar (a : Sala) (p : PistaNode) (y : CStr) :
    y ∈ imprimirPistasInOrder (coletar a p) ↔
      y ∈ imprimirPistasInOrder p ∨ pistaDaSala a = some y := by
  cases a with
  | nulo => simp [coletar, pistaDaSala]
  | no nome esq dir =>
    simp only [coletar, pistaDaSala]
    cases h : pistaParaSala nome with
    | none => simp
    | some x =>
      simp only [mem_inserirPista, Option.some.injEq]
      constructor
      · rintro (rfl | h1)
        · exact Or.inr rfl
        · exact Or.inl h1
      · rintro (h1 | rfl)
        · exact Or.inr h1
        · exact Or.inl rfl

theorem mem_explorarLaco (entrada : List CStr) (a : Sala) (p : PistaNode) (y : CStr) :
    y ∈ imprimirPistasInOrder (explorarLaco a p entrada).2.1 ↔
      y ∈ imprimirPistasInOrder p ∨ ∃ sala ∈ percurso a entrada, pistaDaSala sala = some y := by
  induction entrada generalizing a p with
  | nil => simp [explorarLaco, percurso, mem_coletar]
  | cons c cs ih =>
    simp only [explorarLaco, percurso]
    cases hd : decidir a (primeiroNaoBranco c) with
    | none => simp [mem_coletar]
    | some prox =>
      simp only [ih, mem_coletar, List.mem_cons, exists_eq_or_imp]
      tauto

/-- C14. When `explorarSalas`, started with an empty clue index, ends, the
texts held by the index are exactly the clues that `pistaParaSala` gives for
the rooms visited: the start room and every room the loop moved to before the
first quit or the end of the input. Started with a non-empty index, it holds
these and the texts it had. -/
theorem c14_captura_de_pistas (inicio : Sala) (pistas0 : PistaNode) (entrada : List CStr)
    (y : CStr) :
    (y ∈ imprimirPistasInOrder (explorarSalas inicio .nulo entrada).1 ↔
        ∃ sala ∈ salasVisitadas inicio entrada, pistaDaSala sala = some y) ∧
      (y ∈ imprimirPistasInOrder (explorarSalas inicio pistas0 entrada).1 ↔
        y ∈ imprimirPistasInOrder pistas0 ∨
          ∃ sala ∈ salasVisitadas inicio entrada, pistaDaSala sala = some y) := by
  cases inicio with
  | nulo => simp [explorarSalas, salasVisitadas, imprimirPistasInOrder]
  | no nome esq dir =>
    simp only [explorarSalas, salasVisitadas, mem_explorarLaco, imprimirPistasInOrder,
      List.not_mem_nil, false_or, and_self]

theorem ordemBST_iff_ascendente (t : PistaNode) :
    OrdemBST t ↔ Ascendente (imprimirPistasInOrder t) := by
  induction t with
  | nulo => simp [OrdemBST, imprimirPistasInOrder, Ascendente]
  | no esq p dir ihe ihd =>
    unfold Ascendente at ihe ihd ⊢
    simp only [OrdemBST, imprimirPistasInOrder, List.pairwise_append, List.pairwise_cons,
      List.mem_cons, ihe, ihd]
    constructor
    · rintro ⟨h1, h2, h3, h4⟩
      refine ⟨h3, ⟨h2, h4⟩, ?_⟩
      intro a ha b hb
      rcases hb with rfl | hb
      · exact h1 a ha
      · exact strcmp_trans _ _ _ (h1 a ha) (h2 b hb)
    · rintro ⟨h3, ⟨h2, h4⟩, h5⟩
      exact ⟨fun y hy => h5 y hy p (Or.inl rfl), h2, h3, h4⟩

theorem strcmp_asymm (a b : CStr) (h : strcmp a b < 0) : ¬ strcmp b a < 0 := by
  intro h2
  exact strcmp_irrefl a (strcmp_trans a b a h h2)

theorem inserirPista_of_mem (t : PistaNode) (x : CStr) (hbst : OrdemBST t)
    (hx : x ∈ imprimirPistasInOrder t) : inserirPista t (some x) = t := by
  induction t with
  | nulo => simp [imprimirPistasInOrder] at hx
  | no esq p dir ihe ihd =>
    obtain ⟨h1, h2, h3, h4⟩ := hbst
    rw [inserirPista_no]
    by_cases h0 : strcmp x p = 0
    · simp [h0]
    · have hne : x ≠ p := fun e => h0 ((strcmp_eq_zero_iff x p).mpr e)
      simp only [imprimirPistasInOrder, List.mem_append, List.mem_cons] at hx
      by_cases hlt : strcmp x p < 0
      · simp only [h0, hlt, if_false, if_true]
        rcases hx with hx | hx | hx
        · rw [ihe h3 hx]
        · exact absurd hx hne
        · exact absurd hlt (strcmp_asymm _ _ (h2 x hx))
      · simp only [h0, hlt, if_false]
        rcases hx with hx | hx | hx
        · exact absurd (h1 x hx) hlt
        · exact absurd hx hne
        · rw [ihd h4 hx]

theorem inserirNaListagem_append_lt (x p : CStr) (l r : List CStr) (hlt : strcmp x p < 0) :
    inserirNaListagem x (l ++ p :: r) = inserirNaListagem x l ++ p :: r := by
  induction l with
  | nil => simp [inserirNaListagem, hlt]
  | cons y ys ih =>
    simp only [List.cons_append, inserirNaListagem]
    by_cases hy : strcmp x y < 0
    · simp [hy]
    · simp [hy, ih]

theorem inserirNaListagem_append_gt (x p : CStr) (l r : List CStr)
    (hl : ∀ y ∈ l, ¬ strcmp x y < 0) (hp : ¬ strcmp x p < 0) :
    inserirNaListagem x (l ++ p :: r) = l ++ p :: inserirNaListagem x r := by
  induction l with
  | nil => simp [inserirNaListagem, hp]
  | cons y ys ih =>
    have hy : ¬ strcmp x y < 0 := hl y (List.mem_cons_self _ _)
    have ih2 := ih (fun z hz => hl z (List.mem_cons_of_mem _ hz))
    show inserirNaListagem x (y :: (ys ++ p :: r)) = y :: (ys ++ p :: inserirNaListagem x r)
    simp only [inserirNaListagem, hy, if_false, ih2]

theorem inorder_inserirPista_of_not_mem (t : PistaNode) (x : CStr) (hbst : OrdemBST t)
    (hx : x ∉ imprimirPistasInOrder t) :
    imprimirPistasInOrder (inserirPista t (some x)) =
      inserirNaListagem x (imprimirPistasInOrder t) := by
  induction t with
  | nulo => rfl
  | no esq p dir ihe ihd =>
    obtain ⟨h1, h2, h3, h4⟩ := hbst
    simp only [imprimirPistasInOrder, List.mem_append, List.mem_cons, not_or] at hx
    obtain ⟨hxe, hxp, hxd⟩ := hx
    have h0 : ¬ strcmp x p = 0 := fun e => hxp ((strcmp_eq_zero_iff x p).mp e)
    rw [inserirPista_no]
    by_cases hlt : strcmp x p < 0
    · simp only [h0, hlt, if_false, if_true, imprimirPistasInOrder]
      rw [ihe h3 hxe, inserirNaListagem_append_lt x p _ _ hlt]
    · simp only [h0, hlt, if_false, imprimirPistasInOrder]
      have hgt : strcmp p x < 0 := by
        rw [strcmp_neg_iff_swap_pos]
        omega
      rw [ihd h4 hxd, inserirNaListagem_append_gt x p _ _ ?_ hlt]
      intro y hy
      exact strcmp_asymm _ _ (strcmp_trans _ _ _ (h1 y hy) hgt)

theorem tamanho_eq_length (t : PistaNode) : tamanho t = (imprimirPistasInOrder t).length := by
  induction t with
  | nulo => rfl
  | no esq p dir ihe ihd =>
    simp only [tamanho, imprimirPistasInOrder, List.length_append, List.length_cons, ihe, ihd]
    omega

theorem length_inserirNaListagem (x : CStr) (l : List CStr) :
    (inserirNaListagem x l).length = l.length + 1 := by
  induction l with
  | nil => rfl
  | cons y ys ih =>
    simp only [inserirNaListagem]
    split <;> simp [ih]

/-- C15. For a clue index that satisfies the ordering invariant, `inserirPista`
with a text already in it returns the same tree, and with a new text gives the
listing of the tree with the text put at its sorted position; every text
collected before is kept, the number of nodes grows by one for a new text and
by none for a present one, and the ordering invariant holds afterwards. -/
theorem c15_inserirPista_acrescenta_o_texto (t : PistaNode) (x : CStr) (hbst : OrdemBST t) :
    (x ∈ imprimirPistasInOrder t →
        inserirPista t (some x) = t ∧
          imprimirPistasInOrder (inserirPista t (some x)) = imprimirPistasInOrder t ∧
          tamanho (inserirPista t (some x)) = tamanho t) ∧
      (x ∉ imprimirPistasInOrder t →
        imprimirPistasInOrder (inserirPista t (some x)) =
            inserirNaListagem x (imprimirPistasInOrder t) ∧
          tamanho (inserirPista t (some x)) = tamanho t + 1) ∧
      (∀ y ∈ imprimirPistasInOrder t, y ∈ imprimirPistasInOrder (inserirPista t (some x))) ∧
      OrdemBST (inserirPista t (some x)) := by
  refine ⟨?_, ?_, ?_, ?_⟩
  · intro hx
    rw [inserirPista_of_mem t x hbst hx]
    exact ⟨rfl, rfl, rfl⟩
  · intro hx
    have hl := inorder_inserirPista_of_not_mem t x hbst hx
    refine ⟨hl, ?_⟩
    rw [tamanho_eq_length, tamanho_eq_length, hl, length_inserirNaListagem]
  · intro y hy
    exact (mem_inserirPista t x y).mpr (Or.inr hy)
  · rw [ordemBST_iff_ascendente] at hbst ⊢
    exact inserirPista_ascendente t x hbst

/-- Witness of C15: "b" inserted into the index holding "a" and "c" lands
between them, and the index has three nodes. -/
theorem c15_inserirPista_acrescenta_o_texto_witness :
    OrdemBST (.no .nulo [97] (.no .nulo [99] .nulo)) ∧
      imprimirPistasInOrder (inserirPista (.no .nulo [97] (.no .nulo [99] .nulo)) (some [98])) =
        [[97], [98], [99]] ∧
      tamanho (inserirPista (.no .nulo [97] (.no .nulo [99] .nulo)) (some [98])) = 3 :=
  ⟨by decide,
    ((c15_inserirPista_acrescenta_o_texto (.no .nulo [97] (.no .nulo [99] .nulo)) [98]
      (by decide)).2.1 (by decide)).1.trans (by decide),
    ((c15_inserirPista_acrescenta_o_texto (.no .nulo [97] (.no .nulo [99] .nulo)) [98]
      (by decide)).2.1 (by decide)).2.trans (by decide)⟩

end Mestre

/-! ### Chain invariant of the directory of `mestre.c` -/

namespace Mestre

theorem atualizar_none_iff (k v : CStr) (l : List HashItem) :
    atualizarNaLista k v l = none ↔ k ∉ l.map HashItem.pista := by
  induction l with
  | nil => simp [atualizarNaLista]
  | cons cur prox ih =>
    simp only [atualizarNaLista, List.map_cons, List.mem_cons, not_or]
    by_cases hc : strcmp cur.pista k = 0
    · have hk : k = cur.pista := ((strcmp_eq_zero_iff _ _).mp hc).symm
      simp only [hc, if_true]
      constructor
      · intro h
        cases h
      · intro h
        exact absurd hk h.1
    · have hk : ¬ k = cur.pista := fun e => hc ((strcmp_eq_zero_iff _ _).mpr e.symm)
      simp only [hc, if_false, Option.map_eq_none', ih]
      constructor
      · intro h
        exact ⟨hk, h⟩
      · intro h
        exact h.2

theorem map_substituir_of_not_mem (k v : CStr) (l : List HashItem)
    (h : k ∉ l.map HashItem.pista) : l.map (substituirSuspeito k v) = l := by
  induction l with
  | nil => rfl
  | cons cur prox ih =>
    simp only [List.map_cons, List.mem_cons, not_or] at h
    have hk : ¬ cur.pista = k := fun e => h.1 e.symm
    simp [substituirSuspeito, hk, ih h.2]

theorem atualizar_some_eq (k v : CStr) (l l' : List HashItem)
    (hnd : (l.map HashItem.pista).Nodup) (h : atualizarNaLista k v l = some l') :
    l' = l.map (substituirSuspeito k v) := by
  induction l generalizing l' with
  | nil => simp [atualizarNaLista] at h
  | cons cur prox ih =>
    simp only [List.map_cons, List.nodup_cons] at hnd
    simp only [atualizarNaLista] at h
    by_cases hc : strcmp cur.pista k = 0
    · have hk : cur.pista = k := (strcmp_eq_zero_iff _ _).mp hc
      simp only [hc, if_true, Option.some.injEq] at h
      subst h
      have hnot : k ∉ prox.map HashItem.pista := hk ▸ hnd.1
      simp [substituirSuspeito, hk, map_substituir_of_not_mem k v prox hnot]
    · have hk : ¬ cur.pista = k := fun e => hc ((strcmp_eq_zero_iff _ _).mpr e)
      simp only [hc, if_false, Option.map_eq_some'] at h
      obtain ⟨m, hm, rfl⟩ := h
      simp [substituirSuspeito, hk, ih m hnd.2 hm]

theorem map_pista_substituir (k v : CStr) (l : List HashItem) :
    (l.map (substituirSuspeito k v)).map HashItem.pista = l.map HashItem.pista := by
  induction l with
  | nil => rfl
  | cons cur prox ih =>
    simp only [List.map_cons, ih, List.cons.injEq, and_true]
    unfold substituirSuspeito
    split <;> rfl

theorem buckets_inserir (ht : HashTable) (k v : CStr) (i : Fin HASH_SIZE) :
    (inserirNaHash ht (some k) (some v)).buckets i =
      if i = indice k then
        (atualizarNaLista k v (ht.buckets (indice k))).getD (⟨k, v⟩ :: ht.buckets (indice k))
      else ht.buckets i := by
  simp only [inserirNaHash]
  cases atualizarNaLista k v (ht.buckets (indice k)) <;> rfl

theorem buckets_inserir_presente (ht : HashTable) (k v : CStr) (hinv : InvarianteTabela ht)
    (hk : k ∈ (ht.buckets (indice k)).map HashItem.pista) (i : Fin HASH_SIZE) :
    (inserirNaHash ht (some k) (some v)).buckets i =
      (ht.buckets i).map (substituirSuspeito k v) := by
  rw [buckets_inserir]
  by_cases hi : i = indice k
  · subst hi
    simp only [if_true]
    cases h : atualizarNaLista k v (ht.buckets (indice k)) with
    | none => exact absurd hk ((atualizar_none_iff k v _).mp h)
    | some l => exact atualizar_some_eq k v _ l (hinv.2 _) h
  · simp only [hi, if_false]
    rw [map_substituir_of_not_mem]
    intro hmem
    obtain ⟨it, hit, hpk⟩ := List.mem_map.mp hmem
    have := hinv.1 i it hit
    rw [hpk] at this
    exact hi this.symm

theorem buckets_inserir_ausente (ht : HashTable) (k v : CStr)
    (hk : k ∉ (ht.buckets (indice k)).map HashItem.pista) (i : Fin HASH_SIZE) :
    (inserirNaHash ht (some k) (some v)).buckets i =
      if i = indice k then ⟨k, v⟩ :: ht.buckets i else ht.buckets i := by
  rw [buckets_inserir, (atualizar_none_iff k v _).mpr hk]
  by_cases hi : i = indice k
  · subst hi
    rfl
  · simp [hi]

theorem invariante_inicial : InvarianteTabela inicializarHash := by
  constructor
  · intro i it hit
    simp [inicializarHash] at hit
  · intro i
    simp [inicializarHash]

theorem invariante_inserir (ht : HashTable) (k v : CStr) (hinv : InvarianteTabela ht) :
    InvarianteTabela (inserirNaHash ht (some k) (some v)) := by
  by_cases hk : k ∈ (ht.buckets (indice k)).map HashItem.pista
  · constructor
    · intro i it hit
      rw [buckets_inserir_presente ht k v hinv hk i] at hit
      obtain ⟨it0, hit0, rfl⟩ := List.mem_map.mp hit
      have h0 := hinv.1 i it0 hit0
      unfold substituirSuspeito
      split
      · exact h0
      · exact h0
    · intro i
      rw [buckets_inserir_presente ht k v hinv hk i, map_pista_substituir]
      exact hinv.2 i
  · constructor
    · intro i it hit
      rw [buckets_inserir_ausente ht k v hk i] at hit
      by_cases hi : i = indice k
      · simp only [hi, if_true, List.mem_cons] at hit
        rcases hit with rfl | hit
        · exact hi.symm
        · rw [hi]
          exact hinv.1 _ it hit
      · simp only [hi, if_false] at hit
        exact hinv.1 i it hit
    · intro i
      rw [buckets_inserir_ausente ht k v hk i]
      by_cases hi : i = indice k
      · subst hi
        simp only [if_true, List.map_cons, List.nodup_cons]
        exact ⟨hk, hinv.2 _⟩
      · simp only [hi, if_false]
        exact hinv.2 i

theorem invariante_aplicarInsercoes (ops : List (CStr × CStr)) :
    InvarianteTabela (aplicarInsercoes inicializarHash ops) := by
  induction ops using List.reverseRecOn with
  | nil => exact invariante_inicial
  | append_singleton l kv ih =>
    rw [aplicarInsercoes_snoc]
    exact invariante_inserir _ kv.1 kv.2 ih

theorem mem_todosItens (ht : HashTable) (it : HashItem) :
    it ∈ todosItens ht ↔ ∃ i : Fin HASH_SIZE, it ∈ ht.buckets i := by
  simp [todosItens, List.mem_flatMap, List.mem_finRange]

theorem chave_no_bucket_iff (ht : HashTable) (hinv : InvarianteTabela ht) (k : CStr) :
    k ∈ (todosItens ht).map HashItem.pista ↔ k ∈ (ht.buckets (indice k)).map HashItem.pista := by
  constructor
  · intro h
    obtain ⟨it, hit, rfl⟩ := List.mem_map.mp h
    obtain ⟨i, hi⟩ := (mem_todosItens ht it).mp hit
    have := hinv.1 i it hi
    rw [this]
    exact List.mem_map.mpr ⟨it, hi, rfl⟩
  · intro h
    obtain ⟨it, hit, rfl⟩ := List.mem_map.mp h
    exact List.mem_map.mpr ⟨it, (mem_todosItens ht it).mpr ⟨_, hit⟩, rfl⟩

theorem chaves_nodup (ht : HashTable) (hinv : InvarianteTabela ht) :
    ((todosItens ht).map HashItem.pista).Nodup := by
  unfold todosItens
  rw [List.map_flatMap, List.nodup_flatMap]
  refine ⟨fun i _ => hinv.2 i, ?_⟩
  refine List.Nodup.pairwise_of_forall_ne (List.nodup_finRange _) ?_
  intro i _ j _ hij
  intro x hxi hxj
  obtain ⟨it, hit, rfl⟩ := List.mem_map.mp hxi
  obtain ⟨it2, hit2, hp⟩ := List.mem_map.mp hxj
  have h1 := hinv.1 i it hit
  have h2 := hinv.1 j it2 hit2
  rw [hp] at h2
  exact hij (h1.symm.trans h2)

theorem sum_map_update (f g : Fin HASH_SIZE → Nat) (h : Fin HASH_SIZE)
    (hfg : ∀ i, i ≠ h → g i = f i) (l : List (Fin HASH_SIZE)) (hnd : l.Nodup) :
    (h ∈ l → (l.map g).sum + f h = (l.map f).sum + g h) ∧
      (h ∉ l → (l.map g).sum = (l.map f).sum) := by
  induction l with
  | nil => simp
  | cons a as ih =>
    simp only [List.nodup_cons] at hnd
    obtain ⟨ih1, ih2⟩ := ih hnd.2
    simp only [List.map_cons, List.sum_cons, List.mem_cons, not_or]
    by_cases ha : a = h
    · subst ha
      constructor
      · intro _
        have := ih2 hnd.1
        omega
      · intro hn
        exact absurd rfl hn.1
    · have hga := hfg a ha
      constructor
      · intro hm
        rcases hm with hm | hm
        · exact absurd hm.symm ha
        · have := ih1 hm
          omega
      · intro hn
        have := ih2 hn.2
        omega

theorem numeroItens_eq_sum (ht : HashTable) :
    numeroItens ht = ((List.finRange HASH_SIZE).map (fun i => (ht.buckets i).length)).sum := by
  unfold numeroItens todosItens
  rw [List.length_flatMap]
  rfl

theorem numeroItens_inserir_presente (ht : HashTable) (k v : CStr) (hinv : InvarianteTabela ht)
    (hk : k ∈ (ht.buckets (indice k)).map HashItem.pista) :
    numeroItens (inserirNaHash ht (some k) (some v)) = numeroItens ht := by
  rw [numeroItens_eq_sum, numeroItens_eq_sum]
  congr 1
  apply List.map_congr_left
  intro i _
  rw [buckets_inserir_presente ht k v hinv hk i, List.length_map]

theorem numeroItens_inserir_ausente (ht : HashTable) (k v : CStr)
    (hk : k ∉ (ht.buckets (indice k)).map HashItem.pista) :
    numeroItens (inserirNaHash ht (some k) (some v)) = numeroItens ht + 1 := by
  rw [numeroItens_eq_sum, numeroItens_eq_sum]
  have h := (sum_map_update (fun i => (ht.buckets i).length)
    (fun i => ((inserirNaHash ht (some k) (some v)).buckets i).length) (indice k)
    (fun i hi => by simp only [buckets_inserir_ausente ht k v hk i, hi, if_false])
    (List.finRange HASH_SIZE) (List.nodup_finRange _)).1 (List.mem_finRange _)
  simp only [buckets_inserir_ausente ht k v hk (indice k), if_true, List.length_cons] at h
  omega

/-- C16. In every table that `inserirNaHash` calls build from `inicializarHash`,
no key occurs in two items of the whole table and every item sits in the
bucket `hash_djb2(key) % 101`; a set on a key that is present replaces the
suspect of its item in place, every other item and the number of items being
as before, and a set on a new key puts one more item in the table. The ten
calls of `main`, on ten different keys, leave ten items. -/
theorem c16_invariante_das_cadeias (ops : List (CStr × CStr)) (k v : CStr) :
    ((todosItens (aplicarInsercoes inicializarHash ops)).map HashItem.pista).Nodup ∧
      (∀ i : Fin HASH_SIZE, ∀ it ∈ (aplicarInsercoes inicializarHash ops).buckets i,
        hash_djb2 it.pista % HASH_SIZE = i.val) ∧
      (k ∈ (todosItens (aplicarInsercoes inicializarHash ops)).map HashItem.pista →
        (∀ i : Fin HASH_SIZE,
          (inserirNaHash (aplicarInsercoes inicializarHash ops) (some k) (some v)).buckets i =
            ((aplicarInsercoes inicializarHash ops).buckets i).map (substituirSuspeito k v)) ∧
          numeroItens (inserirNaHash (aplicarInsercoes inicializarHash ops) (some k) (some v)) =
            numeroItens (aplicarInsercoes inicializarHash ops)) ∧
      (k ∉ (todosItens (aplicarInsercoes inicializarHash ops)).map HashItem.pista →
        numeroItens (inserirNaHash (aplicarInsercoes inicializarHash ops) (some k) (some v)) =
          numeroItens (aplicarInsercoes inicializarHash ops) + 1) ∧
      numeroItens tabelaPrincipal = 10 := by
  have hinv := invariante_aplicarInsercoes ops
  refine ⟨chaves_nodup _ hinv, ?_, ?_, ?_, by decide⟩
  · intro i it hit
    have := hinv.1 i it hit
    rw [← this]
    rfl
  · intro hk
    rw [chave_no_bucket_iff _ hinv] at hk
    exact ⟨buckets_inserir_presente _ k v hinv hk, numeroItens_inserir_presente _ k v hinv hk⟩
  · intro hk
    rw [chave_no_bucket_iff _ hinv] at hk
    exact numeroItens_inserir_ausente _ k v hk

end Mestre

/-! ### The hash function of `mestre.c` -/

namespace Mestre

theorem hashPasso_eq (w h c : Nat) : hashPasso w h c = (h * 33 + c) % 2 ^ w := by
  unfold hashPasso
  rw [Nat.mod_add_mod, Nat.add_assoc, Nat.mod_add_mod, Nat.shiftLeft_eq]
  congr 1
  ring

theorem foldl_hashPasso (w : Nat) (s : CStr) (b : Nat) :
    s.foldl (hashPasso w) (b % 2 ^ w) = (s.foldl (fun h c => h * 33 + c) b) % 2 ^ w := by
  induction s generalizing b with
  | nil => rfl
  | cons c cs ih =>
    simp only [List.foldl_cons]
    rw [← ih (b * 33 + c)]
    congr 1
    rw [hashPasso_eq, Nat.add_mod, Nat.mul_mod, Nat.mod_mod, ← Nat.mul_mod, ← Nat.add_mod]

/-- C17. For an `unsigned long` of `w` bits that holds 5381, `hash_djb2` of a
byte string is the left fold of `h * 33 + byte` from 5381, taken modulo `2^w`,
each shift-and-add round being `h * 33 + c` modulo `2^w`; so it is for the 64
bits used here; and the bucket index `hash_djb2(s) % 101` is at most 100. -/
theorem c17_hash_djb2 (w : Nat) (s : CStr) (hw : 5381 < 2 ^ w) :
    hash_djb2_em w s = (s.foldl (fun h c => h * 33 + c) 5381) % 2 ^ w ∧
      (∀ h c : Nat, hashPasso w h c = (h * 33 + c) % 2 ^ w) ∧
      hash_djb2 s = (s.foldl (fun h c => h * 33 + c) 5381) % 2 ^ 64 ∧
      hash_djb2 s % HASH_SIZE ≤ 100 ∧
      (indice s).val = hash_djb2 s % HASH_SIZE := by
  refine ⟨?_, hashPasso_eq w, ?_, ?_, rfl⟩
  · have h := foldl_hashPasso w s 5381
    rw [Nat.mod_eq_of_lt hw] at h
    exact h
  · have h := foldl_hashPasso 64 s 5381
    rw [Nat.mod_eq_of_lt (by norm_num)] at h
    exact h
  · have h : hash_djb2 s % HASH_SIZE < HASH_SIZE := Nat.mod_lt _ (by decide)
    unfold HASH_SIZE at h ⊢
    omega

/-- Witness of C17: with 32 bits the hash of "ab" is 5381 * 33 * 33 + 97 * 33 + 98
without wrap-around, 5863208. -/
theorem c17_hash_djb2_witness :
    5381 < 2 ^ 32 ∧ hash_djb2_em 32 [97, 98] = 5863208 :=
  ⟨by decide, (c17_hash_djb2 32 [97, 98] (by decide)).1.trans (by decide)⟩

end Mestre

/-! ### Navigation only descends in `mestre.c` -/

namespace Mestre

theorem decidir_eq_descer (a : Sala) (c : Nat) (prox : Sala) (h : decidir a c = some prox) :
    prox = descer a (movimento a c).toList ∧ (a ≠ .nulo → prox ≠ .nulo) := by
  cases a with
  | nulo => simp [decidir] at h
  | no nome esq dir =>
    simp only [decidir] at h
    simp only [movimento]
    by_cases h1 : c = 115 ∨ c = 83
    · rw [if_pos h1] at h
      cases h
    · rw [if_neg h1] at h
      rw [if_neg h1]
      by_cases h2 : (c = 101 ∨ c = 69) ∧ esq ≠ .nulo
      · rw [if_pos h2] at h
        rw [if_pos h2]
        cases h
        exact ⟨rfl, fun _ => h2.2⟩
      · rw [if_neg h2] at h
        rw [if_neg h2]
        by_cases h3 : (c = 100 ∨ c = 68) ∧ dir ≠ .nulo
        · rw [if_pos h3] at h
          rw [if_pos h3]
          cases h
          exact ⟨rfl, fun _ => h3.2⟩
        · rw [if_neg h3] at h
          rw [if_neg h3]
          cases h
          exact ⟨rfl, fun hn => hn⟩

theorem descer_append (a : Sala) (p q : List Bool) :
    descer a (p ++ q) = descer (descer a p) q := by
  induction p generalizing a with
  | nil => rfl
  | cons d ds ih => exact ih (filho a d)

theorem descer_nulo (p : List Bool) : descer .nulo p = .nulo := by
  induction p with
  | nil => rfl
  | cons d ds ih => exact ih

theorem length_lt_altura (a : Sala) (p : List Bool) (h : descer a p ≠ .nulo) :
    p.length + 1 ≤ altura a := by
  induction p generalizing a with
  | nil =>
    cases a with
    | nulo => exact absurd rfl h
    | no nome esq dir => simp [altura]
  | cons d ds ih =>
    cases a with
    | nulo => exact absurd (descer_nulo _) h
    | no nome esq dir =>
      have h2 := ih (filho (.no nome esq dir) d) h
      cases d
      · simp only [filho] at h2
        simp only [altura, List.length_cons]
        have := le_max_left (altura esq) (altura dir)
        simp only [Bool.false_eq_true, if_false] at h2
        omega
      · simp only [filho] at h2
        simp only [altura, List.length_cons]
        have := le_max_right (altura esq) (altura dir)
        simp only [if_true] at h2
        omega

theorem estadoApos_descer (cmds : List CStr) (inicio : Sala) (pistas0 : PistaNode)
    (atual : Sala) (pistas : PistaNode) (hin : inicio ≠ .nulo)
    (h : estadoApos inicio pistas0 cmds = some (atual, pistas)) :
    atual = descer inicio (movimentos inicio cmds) ∧ atual ≠ .nulo := by
  induction cmds generalizing inicio pistas0 with
  | nil =>
    simp only [estadoApos, Option.some.injEq, Prod.mk.injEq] at h
    obtain ⟨rfl, -⟩ := h
    exact ⟨rfl, hin⟩
  | cons c cs ih =>
    simp only [estadoApos] at h
    cases hd : decidir inicio (primeiroNaoBranco c) with
    | none => simp [hd] at h
    | some prox =>
      simp only [hd] at h
      obtain ⟨hp, hpn⟩ := decidir_eq_descer inicio _ prox hd
      obtain ⟨h1, h2⟩ := ih prox (coletar inicio pistas0) (hpn hin) h
      refine ⟨?_, h2⟩
      simp only [movimentos, hd]
      rw [descer_append, ← hp]
      exact h1

theorem movimentos_append (cmds : List CStr) (inicio : Sala) (pistas0 : PistaNode)
    (atual : Sala) (pistas : PistaNode) (mais : List CStr)
    (h : estadoApos inicio pistas0 cmds = some (atual, pistas)) :
    movimentos inicio (cmds ++ mais) = movimentos inicio cmds ++ movimentos atual mais := by
  induction cmds generalizing inicio pistas0 with
  | nil =>
    simp only [estadoApos, Option.some.injEq, Prod.mk.injEq] at h
    obtain ⟨rfl, -⟩ := h
    rfl
  | cons c cs ih =>
    simp only [estadoApos] at h
    cases hd : decidir inicio (primeiroNaoBranco c) with
    | none => simp [hd] at h
    | some prox =>
      simp only [hd] at h
      simp only [List.cons_append, movimentos, hd, List.append_assoc]
      exact congrArg _ (ih prox (coletar inicio pistas0) h)

theorem movimentos_prefix (l l' : List CStr) (a : Sala) :
    movimentos a l <+: movimentos a (l ++ l') := by
  induction l generalizing a with
  | nil => exact List.nil_prefix
  | cons c cs ih =>
    simp only [List.cons_append, movimentos]
    cases decidir a (primeiroNaoBranco c) with
    | none => exact List.prefix_refl _
    | some prox => exact (List.prefix_append_right_inj _).mpr (ih prox)

/-- C18. In every state that `explorarSalas` reaches from a start room, the
current room is the node of the tree of the start room at the end of the path
of the moves made so far; a command lengthens that path by one direction when
it moves and leaves it as it is otherwise, so the depth never decreases; the
number of moves stays below the number of levels of the tree; and once the
path has grown past a room, no later command brings it back to that room. -/
theorem c18_navegacao_so_desce (inicio : Sala) (pistas0 : PistaNode) (cmds : List CStr)
    (atual : Sala) (pistas : PistaNode) (hin : inicio ≠ .nulo)
    (halc : estadoApos inicio pistas0 cmds = some (atual, pistas)) :
    atual = descer inicio (movimentos inicio cmds) ∧ atual ≠ .nulo ∧
      (movimentos inicio cmds).length + 1 ≤ altura inicio ∧
      (∀ escolha : CStr,
        movimentos inicio (cmds ++ [escolha]) =
          movimentos inicio cmds ++ (movimento atual (primeiroNaoBranco escolha)).toList) ∧
      (∀ mais : List CStr, movimentos inicio cmds <+: movimentos inicio (cmds ++ mais)) ∧
      (∀ mais depois : List CStr,
        movimentos inicio (cmds ++ mais) ≠ movimentos inicio cmds →
          movimentos inicio (cmds ++ mais ++ depois) ≠ movimentos inicio cmds) := by
  obtain ⟨h1, h2⟩ := estadoApos_descer cmds inicio pistas0 atual pistas hin halc
  refine ⟨h1, h2, length_lt_altura inicio _ (h1 ▸ h2), ?_, ?_, ?_⟩
  · intro escolha
    rw [movimentos_append cmds inicio pistas0 atual pistas [escolha] halc]
    congr 1
    simp only [movimentos]
    cases hd : decidir atual (primeiroNaoBranco escolha) with
    | none =>
      cases atual with
      | nulo => rfl
      | no nome esq dir =>
        simp only [decidir] at hd
        simp only [movimento]
        by_cases hq : primeiroNaoBranco escolha = 115 ∨ primeiroNaoBranco escolha = 83
        · simp [hq]
        · simp only [hq, if_false] at hd
          split_ifs at hd
    | some prox => simp [movimentos]
  · intro mais
    exact movimentos_prefix cmds mais inicio
  · intro mais depois hne heq
    have p1 := movimentos_prefix cmds mais inicio
    have p2 := movimentos_prefix (cmds ++ mais) depois inicio
    have l1 := p1.length_le
    have l2 := p2.length_le
    rw [heq] at l2
    exact hne (p1.eq_of_length_le l2).symm

/-- Witness of C18: in the mansion of `main`, after "e", the invalid "x" and
"d" the player is in "Escritório", two levels below "Entrada". -/
theorem c18_navegacao_so_desce_witness :
    movimentos mansao [[101, 10], [120, 10], [100, 10]] = [false, true] ∧
      descer mansao (movimentos mansao [[101, 10], [120, 10], [100, 10]]) =
        .no salaEscritorio .nulo (.no salaCloset .nulo .nulo) ∧
      altura mansao = 4 :=
  ⟨by decide,
    ((c18_navegacao_so_desce mansao .nulo [[101, 10], [120, 10], [100, 10]]
      (.no salaEscritorio .nulo (.no salaCloset .nulo .nulo))
      (.no (.no .nulo pistaEscritorio .nulo) pistaEntrada (.no .nulo pistaSalaDeEstar .nulo))
      (by decide) (by decide)).1).symm,
    by decide⟩

end Mestre

/-! ### Which accusations can win the fixed game of `mestre.c` -/

namespace Mestre

theorem decidir_casos (nome : CStr) (esq dir : Sala) (c : Nat) (prox : Sala)
    (h : decidir (.no nome esq dir) c = some prox) :
    (prox = esq ∧ esq ≠ .nulo) ∨ (prox = dir ∧ dir ≠ .nulo) ∨ prox = .no nome esq dir := by
  simp only [decidir] at h
  split_ifs at h with h1 h2 h3
  · cases h
    exact Or.inl ⟨rfl, h2.2⟩
  · cases h
    exact Or.inr (Or.inl ⟨rfl, h3.2⟩)
  · cases h
    exact Or.inr (Or.inr rfl)

theorem resultadosPossiveis_coletar (a : Sala) (p : PistaNode) :
    resultadosPossiveis a (coletar a p) = resultadosPossiveis a p := by
  cases a with
  | nulo => rfl
  | no nome esq dir => simp only [resultadosPossiveis, coletar_coletar]

theorem explorarLaco_mem_resultados (entrada : List CStr) (a : Sala) (p : PistaNode)
    (ha : a ≠ .nulo) : (explorarLaco a p entrada).2.1 ∈ resultadosPossiveis a p := by
  induction entrada generalizing a p with
  | nil =>
    cases a with
    | nulo => exact absurd rfl ha
    | no nome esq dir => simp [explorarLaco, resultadosPossiveis]
  | cons c cs ih =>
    cases a with
    | nulo => exact absurd rfl ha
    | no nome esq dir =>
      simp only [explorarLaco]
      cases hd : decidir (.no nome esq dir) (primeiroNaoBranco c) with
      | none => simp [resultadosPossiveis]
      | some prox =>
        simp only [resultadosPossiveis, List.mem_cons, List.mem_append]
        rcases decidir_casos nome esq dir _ prox hd with ⟨rfl, hn⟩ | ⟨rfl, hn⟩ | rfl
        · exact Or.inr (Or.inl (ih _ _ hn))
        · exact Or.inr (Or.inr (ih _ _ hn))
        · have h := ih (.no nome esq dir) (coletar (.no nome esq dir) p) ha
          rw [resultadosPossiveis_coletar] at h
          simpa only [resultadosPossiveis, List.mem_cons, List.mem_append] using h

theorem some_mem_of_countP_pos (l : List (Option CStr)) (s : CStr)
    (h : 0 < l.countP (fun o => decide (o = some s))) : some s ∈ l := by
  rw [List.countP_pos_iff] at h
  obtain ⟨a, ha, he⟩ := h
  simp only [decide_eq_true_eq] at he
  exact he ▸ ha

theorem resultados_da_mansao_limite :
    ∀ t ∈ resultadosPossiveis mansao .nulo,
      ∀ x ∈ suspeitosDasPistas t tabelaPrincipal,
        (suspeitosDasPistas t tabelaPrincipal).countP (fun o => decide (o = x)) ≤ 2 := by
  decide

theorem resultados_da_mansao_culpados :
    ∀ t ∈ resultadosPossiveis mansao .nulo,
      ∀ x ∈ suspeitosDasPistas t tabelaPrincipal,
        2 ≤ (suspeitosDasPistas t tabelaPrincipal).countP (fun o => decide (o = x)) →
          (x = some nomeCarlos ∧ pistaEscritorio ∈ imprimirPistasInOrder t) ∨
            (x = some nomeMariana ∧ pistaJardim ∈ imprimirPistasInOrder t) := by
  decide

/-- C19. In the game of `main`, whatever the commands, no name has a tally
above 2; a tally of 2 or more is had by "Carlos", and then the clue of
"Escritório" has been collected, or by "Mariana", and then the clue of
"Jardim" has been collected, and by no other name; the run left, right reaches
it for "Carlos" in "Escritório" and the run right, right for "Mariana" in
"Jardim". -/
theorem c19_acusacoes_vencedoras (entrada : List CStr) (s : CStr) :
    contarPistasParaSuspeito (explorarSalas mansao .nulo entrada).1 tabelaPrincipal s ≤ 2 ∧
      (2 ≤ contarPistasParaSuspeito (explorarSalas mansao .nulo entrada).1 tabelaPrincipal s →
        (s = nomeCarlos ∧
            pistaEscritorio ∈ imprimirPistasInOrder (explorarSalas mansao .nulo entrada).1) ∨
          (s = nomeMariana ∧
            pistaJardim ∈ imprimirPistasInOrder (explorarSalas mansao .nulo entrada).1)) ∧
      ((∃ e : List CStr,
          2 ≤ contarPistasParaSuspeito (explorarSalas mansao .nulo e).1 tabelaPrincipal s) ↔
        (s = nomeCarlos ∨ s = nomeMariana)) ∧
      (explorarLaco mansao .nulo [[101, 10], [100, 10]]).1 =
        .no salaEscritorio .nulo (.no salaCloset .nulo .nulo) ∧
      contarPistasParaSuspeito (explorarSalas mansao .nulo [[101, 10], [100, 10]]).1
        tabelaPrincipal nomeCarlos = 2 ∧
      (explorarLaco mansao .nulo [[100, 10], [100, 10]]).1 = .no salaJardim .nulo .nulo ∧
      contarPistasParaSuspeito (explorarSalas mansao .nulo [[100, 10], [100, 10]]).1
        tabelaPrincipal nomeMariana = 2 := by
  have hmem : ∀ e : List CStr,
      (explorarSalas mansao .nulo e).1 ∈ resultadosPossiveis mansao .nulo := fun e =>
    explorarLaco_mem_resultados e mansao .nulo (by decide)
  have hculp : ∀ e : List CStr,
      2 ≤ contarPistasParaSuspeito (explorarSalas mansao .nulo e).1 tabelaPrincipal s →
        (s = nomeCarlos ∧
            pistaEscritorio ∈ imprimirPistasInOrder (explorarSalas mansao .nulo e).1) ∨
          (s = nomeMariana ∧
            pistaJardim ∈ imprimirPistasInOrder (explorarSalas mansao .nulo e).1) := by
    intro e h2
    rw [contar_eq_countP_suspeitos] at h2
    have h2n : 2 ≤ (suspeitosDasPistas (explorarSalas mansao .nulo e).1
        tabelaPrincipal).countP (fun o => decide (o = some s)) := by
      exact_mod_cast h2
    have hin := some_mem_of_countP_pos _ s (lt_of_lt_of_le (by norm_num : 0 < 2) h2n)
    rcases resultados_da_mansao_culpados _ (hmem e) (some s) hin h2n with ⟨h, hp⟩ | ⟨h, hp⟩
    · exact Or.inl ⟨Option.some.inj h, hp⟩
    · exact Or.inr ⟨Option.some.inj h, hp⟩
  have hC : contarPistasParaSuspeito (explorarSalas mansao .nulo [[101, 10], [100, 10]]).1
      tabelaPrincipal nomeCarlos = 2 := by decide
  have hM : contarPistasParaSuspeito (explorarSalas mansao .nulo [[100, 10], [100, 10]]).1
      tabelaPrincipal nomeMariana = 2 := by decide
  refine ⟨?_, hculp entrada, ⟨?_, ?_⟩, by decide, hC, by decide, hM⟩
  · rw [contar_eq_countP_suspeitos]
    have h := countP_le_of_forall_mem _ 2
      (resultados_da_mansao_limite _ (hmem entrada)) s
    exact_mod_cast h
  · rintro ⟨e, he⟩
    rcases hculp e he with ⟨h, -⟩ | ⟨h, -⟩
    · exact Or.inl h
    · exact Or.inr h
  · rintro (rfl | rfl)
    · exact ⟨[[101, 10], [100, 10]], by rw [hC]⟩
    · exact ⟨[[100, 10], [100, 10]], by rw [hM]⟩

end Mestre

/-! ### Exploration in `novato,.c` -/

namespace Novato

theorem explorarSalas_folha (nome : CStr) (escolha : Nat) (entrada : List Nat) :
    explorarSalas (.no nome .nulo .nulo) escolha entrada =
      (.no nome .nulo .nulo, .semCaminhos, entrada) := by
  cases entrada <;> simp [explorarSalas, aposFimDaEntrada]

theorem explorarSalas_passo (nome : CStr) (esquerda direita : Sala) (escolha c : Nat)
    (resto : List Nat) (h : ¬ (esquerda = .nulo ∧ direita = .nulo)) :
    explorarSalas (.no nome esquerda direita) escolha (c :: resto) =
      match decidir nome esquerda direita c with
      | none => (.no nome esquerda direita, .saiu, resto)
      | some proxima => explorarSalas proxima c resto := by
  simp only [explorarSalas, h, if_false]

theorem esquerda_ne_no (nome : CStr) (esquerda direita : Sala) :
    esquerda ≠ .no nome esquerda direita := by
  intro h
  have hs := congrArg sizeOf h
  simp only [Sala.no.sizeOf_spec] at hs
  omega

theorem direita_ne_no (nome : CStr) (esquerda direita : Sala) :
    direita ≠ .no nome esquerda direita := by
  intro h
  have hs := congrArg sizeOf h
  simp only [Sala.no.sizeOf_spec] at hs
  omega

/-- At the end of the input the loop runs the `if` chain of `decidir` on the
kept character: it returns on quit, runs for ever when the room is kept, and
goes on from the child otherwise. -/
theorem aposFimDaEntrada_passo (nome : CStr) (esquerda direita : Sala) (escolha : Nat)
    (h : ¬ (esquerda = .nulo ∧ direita = .nulo)) :
    aposFimDaEntrada escolha (.no nome esquerda direita) =
      match decidir nome esquerda direita escolha with
      | none => (.no nome esquerda direita, .saiu)
      | some proxima =>
        if proxima = .no nome esquerda direita then (.no nome esquerda direita, .naoTermina)
        else aposFimDaEntrada escolha proxima := by
  simp only [aposFimDaEntrada, h, if_false, decidir]
  by_cases h1 : escolha = 101 ∨ escolha = 69
  · rw [if_pos h1, if_pos h1]
    by_cases he : esquerda ≠ .nulo
    · rw [if_pos he, if_pos he]
      simp only [esquerda_ne_no nome esquerda direita, if_false]
    · rw [if_neg he, if_neg he]
      simp
  · rw [if_neg h1, if_neg h1]
    by_cases h2 : escolha = 100 ∨ escolha = 68
    · rw [if_pos h2, if_pos h2]
      by_cases hd : direita ≠ .nulo
      · rw [if_pos hd, if_pos hd]
        simp only [direita_ne_no nome esquerda direita, if_false]
      · rw [if_neg hd, if_neg hd]
        simp
    · rw [if_neg h2, if_neg h2]
      by_cases h3 : escolha = 115 ∨ escolha = 83
      · rw [if_pos h3, if_pos h3]
      · rw [if_neg h3, if_neg h3]
        simp

/-- C20. In `novato,.c` a room without children ends the exploration at once:
`explorarSalas` stops in it with the "no more paths" message and reads no
character, whatever the input and the variable `escolha` hold. In a room with
a child, a character read from the input acts thus: `e` or `E` goes on in the
left child, or in the same room when there is none; `d` or `D` likewise on the
right; `s` or `S` ends the run in the room; and any other character goes on in
the same room. -/
theorem c20_sala_sem_filhos_encerra (nome : CStr) (esquerda direita : Sala)
    (escolha c : Nat) (resto entrada : List Nat)
    (h : ¬ (esquerda = .nulo ∧ direita = .nulo)) :
    explorarSalas (.no nome .nulo .nulo) escolha entrada =
        (.no nome .nulo .nulo, .semCaminhos, entrada) ∧
      ((c = 101 ∨ c = 69) → esquerda ≠ .nulo →
        explorarSalas (.no nome esquerda direita) escolha (c :: resto) =
          explorarSalas esquerda c resto) ∧
      ((c = 101 ∨ c = 69) → esquerda = .nulo →
        explorarSalas (.no nome esquerda direita) escolha (c :: resto) =
          explorarSalas (.no nome esquerda direita) c resto) ∧
      ((c = 100 ∨ c = 68) → direita ≠ .nulo →
        explorarSalas (.no nome esquerda direita) escolha (c :: resto) =
          explorarSalas direita c resto) ∧
      ((c = 100 ∨ c = 68) → direita = .nulo →
        explorarSalas (.no nome esquerda direita) escolha (c :: resto) =
          explorarSalas (.no nome esquerda direita) c resto) ∧
      ((c = 115 ∨ c = 83) →
        explorarSalas (.no nome esquerda direita) escolha (c :: resto) =
          (.no nome esquerda direita, .saiu, resto)) ∧
      (c ≠ 101 ∧ c ≠ 69 ∧ c ≠ 100 ∧ c ≠ 68 ∧ c ≠ 115 ∧ c ≠ 83 →
        explorarSalas (.no nome esquerda direita) escolha (c :: resto) =
          explorarSalas (.no nome esquerda direita) c resto) := by
  refine ⟨explorarSalas_folha nome escolha entrada, ?_, ?_, ?_, ?_, ?_, ?_⟩
  · intro hc he
    rw [explorarSalas_passo nome esquerda direita escolha c resto h]
    simp [decidir, hc, he]
  · intro hc he
    rw [explorarSalas_passo nome esquerda direita escolha c resto h]
    simp [decidir, hc, he]
  · intro hc hd
    rw [explorarSalas_passo nome esquerda direita escolha c resto h]
    rcases hc with rfl | rfl <;> simp [decidir, hd]
  · intro hc hd
    rw [explorarSalas_passo nome esquerda direita escolha c resto h]
    rcases hc with rfl | rfl <;> simp [decidir, hd]
  · intro hc
    rw [explorarSalas_passo nome esquerda direita escolha c resto h]
    rcases hc with rfl | rfl <;> simp [decidir]
  · rintro ⟨h1, h2, h3, h4, h5, h6⟩
    rw [explorarSalas_passo nome esquerda direita escolha c resto h]
    simp [decidir, h1, h2, h3, h4, h5, h6]

/-- Witness of C20: in the mansion of `main`, "d" goes from the hall to
"Cozinha", "e" stays there as it has no left child, "d" reaches the childless
"Porão", where the run ends with the "s" and "x" that follow left unread.
With "e" as the whole input, the run goes to "Sala de Estar" and, the input
being at its end, on to the childless "Biblioteca", where it ends; with "x" as
the whole input it never leaves the hall. -/
theorem c20_sala_sem_filhos_encerra_witness :
    explorarSalas mansao 0 [100, 101, 100, 115, 120] =
        (.no [80, 111, 114, 195, 163, 111] .nulo .nulo, .semCaminhos, [115, 120]) ∧
      explorarSalas mansao 0 [101] =
        (.no [66, 105, 98, 108, 105, 111, 116, 101, 99, 97] .nulo .nulo, .semCaminhos, []) ∧
      (explorarSalas mansao 0 [120]).2.1 = .naoTermina :=
  ⟨((c20_sala_sem_filhos_encerra
      [72, 97, 108, 108, 32, 100, 101, 32, 69, 110, 116, 114, 97, 100, 97]
      (.no [83, 97, 108, 97, 32, 100, 101, 32, 69, 115, 116, 97, 114]
        (.no [66, 105, 98, 108, 105, 111, 116, 101, 99, 97] .nulo .nulo)
        (.no [74, 97, 114, 100, 105, 109] .nulo .nulo))
      (.no [67, 111, 122, 105, 110, 104, 97] .nulo (.no [80, 111, 114, 195, 163, 111] .nulo .nulo))
      0 100 [101, 100, 115, 120] [] (by decide)).2.2.2.1 (Or.inl rfl) (by decide)).trans
    (by decide), by decide, by decide⟩

end Novato

/-! ### Repeated texts in the clue tree of `aventureiro.c` -/

namespace Aventureiro

theorem inserirPista_no_some (esq dir : PistaNode) (c x : CStr) (hx : x ≠ []) :
    inserirPista (.no esq c dir) (some x) =
      if strcmp x c < 0 then .no (inserirPista esq (some x)) c dir
      else .no esq c (inserirPista dir (some x)) := by
  simp only [inserirPista, length_ne_zero_of_ne_nil x hx, if_false]

theorem acrescentaFolha_inserirPista (t : PistaNode) (x : CStr) (hx : x ≠ []) :
    acrescentaFolha x t (inserirPista t (some x)) = true := by
  induction t with
  | nulo => simp [inserirPista, length_ne_zero_of_ne_nil x hx, acrescentaFolha]
  | no esq c dir ihe ihd =>
    rw [inserirPista_no_some esq dir c x hx]
    by_cases hlt : strcmp x c < 0
    · rw [if_pos hlt]
      simp [acrescentaFolha, ihe]
    · rw [if_neg hlt]
      simp [acrescentaFolha, ihd]

theorem mem_exibir_inserirPista (t : PistaNode) (x y : CStr) (hx : x ≠ []) :
    y ∈ exibirPistas (inserirPista t (some x)) ↔ y = x ∨ y ∈ exibirPistas t := by
  rw [(inserirPista_perm t x hx).mem_iff, List.mem_cons]

theorem inserirAposIguais_append_lt (x c : CStr) (l r : List CStr) (hlt : strcmp x c < 0) :
    inserirAposIguais x (l ++ c :: r) = inserirAposIguais x l ++ c :: r := by
  induction l with
  | nil => simp [inserirAposIguais, hlt]
  | cons y ys ih =>
    show inserirAposIguais x (y :: (ys ++ c :: r)) = inserirAposIguais x (y :: ys) ++ c :: r
    simp only [inserirAposIguais]
    by_cases hy : strcmp x y < 0
    · simp [hy]
    · simp [hy, ih]

theorem inserirAposIguais_append_ge (x c : CStr) (l r : List CStr)
    (hl : ∀ y ∈ l, ¬ strcmp x y < 0) (hc : ¬ strcmp x c < 0) :
    inserirAposIguais x (l ++ c :: r) = l ++ c :: inserirAposIguais x r := by
  induction l with
  | nil => simp [inserirAposIguais, hc]
  | cons y ys ih =>
    have hy : ¬ strcmp x y < 0 := hl y (List.mem_cons_self _ _)
    have ih2 := ih (fun z hz => hl z (List.mem_cons_of_mem _ hz))
    show inserirAposIguais x (y :: (ys ++ c :: r)) = y :: (ys ++ c :: inserirAposIguais x r)
    simp only [inserirAposIguais, hy, if_false, ih2]

theorem exibir_inserirPista_ordenada (t : PistaNode) (x : CStr) (hx : x ≠ [])
    (hord : OrdemComRepeticao t) :
    exibirPistas (inserirPista t (some x)) = inserirAposIguais x (exibirPistas t) := by
  induction t with
  | nulo => simp [inserirPista, length_ne_zero_of_ne_nil x hx, exibirPistas, inserirAposIguais]
  | no esq c dir ihe ihd =>
    obtain ⟨h1, h2, h3, h4⟩ := hord
    rw [inserirPista_no_some esq dir c x hx]
    by_cases hlt : strcmp x c < 0
    · rw [if_pos hlt]
      simp only [exibirPistas]
      rw [ihe h3, inserirAposIguais_append_lt x c _ _ hlt]
    · rw [if_neg hlt]
      simp only [exibirPistas]
      rw [ihd h4, inserirAposIguais_append_ge x c _ _ ?_ hlt]
      intro y hy hxy
      exact hlt (strcmp_trans _ _ _ hxy (h1 y hy))

theorem ordem_inserirPista (t : PistaNode) (x : CStr) (hx : x ≠ [])
    (hord : OrdemComRepeticao t) : OrdemComRepeticao (inserirPista t (some x)) := by
  induction t with
  | nulo =>
    simp [inserirPista, length_ne_zero_of_ne_nil x hx, OrdemComRepeticao, exibirPistas]
  | no esq c dir ihe ihd =>
    obtain ⟨h1, h2, h3, h4⟩ := hord
    rw [inserirPista_no_some esq dir c x hx]
    by_cases hlt : strcmp x c < 0
    · rw [if_pos hlt]
      refine ⟨?_, h2, ihe h3, h4⟩
      intro y hy
      rcases (mem_exibir_inserirPista esq x y hx).mp hy with rfl | hy
      · exact hlt
      · exact h1 y hy
    · rw [if_neg hlt]
      refine ⟨h1, ?_, h3, ihd h4⟩
      intro y hy
      rcases (mem_exibir_inserirPista dir x y hx).mp hy with rfl | hy
      · exact hlt
      · exact h2 y hy

/-- Counterexample to C8 as stated: the clue "Pegadas misteriosas" is in the
tree built by one `inserirPista`, and inserting it again returns a different
tree: the node of the first insertion with a new node holding the same text
as its right child, two entries in the listing. -/
theorem c8_duplicata_contraexemplo :
    pistaHallDeEntrada ∈ exibirPistas (inserirPista .nulo (some pistaHallDeEntrada)) ∧
      inserirPista (inserirPista .nulo (some pistaHallDeEntrada)) (some pistaHallDeEntrada) ≠
        inserirPista .nulo (some pistaHallDeEntrada) ∧
      inserirPista (inserirPista .nulo (some pistaHallDeEntrada)) (some pistaHallDeEntrada) =
        .no .nulo pistaHallDeEntrada (.no .nulo pistaHallDeEntrada .nulo) ∧
      exibirPistas
          (inserirPista (inserirPista .nulo (some pistaHallDeEntrada))
            (some pistaHallDeEntrada)) =
        [pistaHallDeEntrada, pistaHallDeEntrada] := by
  decide

/-- C8, amended. In `aventureiro.c`, for every clue tree and every non-empty
text that fits the buffer `conteudo` (at most 99 bytes), `inserirPista`
returns the tree with every node in its place and one new leaf holding the
text, also when the text is already present. At a node the text goes into the
left subtree when it sorts strictly before the text of the node and into the
right subtree otherwise, so an equal text goes to the right. The listing gains
one copy of the text; in an ordered tree the copy stands after the entries
equal to it and the tree stays ordered; the texts of the tree still fit the
buffer; `n` insertions of the same clue into the empty tree leave `n` nodes
holding it. Only a `NULL` or empty text leaves the tree as it was. -/
theorem c8_inserirPista_acrescenta_no (t : PistaNode) (x : CStr) (hx : x ≠ [])
    (hlen : x.length < TAM_CONTEUDO) :
    acrescentaFolha x t (inserirPista t (some x)) = true ∧
      (∀ (esq dir : PistaNode) (c : CStr),
        (strcmp x c < 0 →
          inserirPista (.no esq c dir) (some x) = .no (inserirPista esq (some x)) c dir) ∧
        (¬ strcmp x c < 0 →
          inserirPista (.no esq c dir) (some x) = .no esq c (inserirPista dir (some x)))) ∧
      (∀ esq dir : PistaNode,
        inserirPista (.no esq x dir) (some x) = .no esq x (inserirPista dir (some x))) ∧
      (exibirPistas (inserirPista t (some x))).Perm (x :: exibirPistas t) ∧
      (exibirPistas (inserirPista t (some x))).countP (fun y => decide (y = x)) =
        (exibirPistas t).countP (fun y => decide (y = x)) + 1 ∧
      (OrdemComRepeticao t →
        exibirPistas (inserirPista t (some x)) = inserirAposIguais x (exibirPistas t) ∧
          OrdemComRepeticao (inserirPista t (some x))) ∧
      ((∀ y ∈ exibirPistas t, y.length < TAM_CONTEUDO) →
        ∀ y ∈ exibirPistas (inserirPista t (some x)), y.length < TAM_CONTEUDO) ∧
      (∀ n : Nat,
        (exibirPistas (inserirVezes .nulo x n)).countP (fun y => decide (y = x)) = n) ∧
      inserirPista t none = t ∧ inserirPista t (some []) = t := by
  refine ⟨acrescentaFolha_inserirPista t x hx, ?_, ?_, inserirPista_perm t x hx, ?_, ?_, ?_, ?_,
    av_inserirPista_none t, inserirPista_vazia t⟩
  · intro esq dir c
    constructor
    · intro hlt
      rw [inserirPista_no_some esq dir c x hx, if_pos hlt]
    · intro hge
      rw [inserirPista_no_some esq dir c x hx, if_neg hge]
  · intro esq dir
    rw [inserirPista_no_some esq dir x x hx, if_neg (strcmp_irrefl x)]
  · rw [(inserirPista_perm t x hx).countP_eq]
    simp only [List.countP_cons, decide_True, if_true]
  · intro hord
    exact ⟨exibir_inserirPista_ordenada t x hx hord, ordem_inserirPista t x hx hord⟩
  · intro hfit y hy
    rcases (mem_exibir_inserirPista t x y hx).mp hy with rfl | hy
    · exact hlen
    · exact hfit y hy
  · intro n
    rw [count_inserirVezes x hx n .nulo]
    simp [exibirPistas]

/-- Witness of C8, amended: in the ordered tree that holds "Faca fora do lugar"
and, to its right, "Pegadas misteriosas", a second "Pegadas misteriosas" becomes
the right child of the first, and the listing has it after the first. -/
theorem c8_inserirPista_acrescenta_no_witness :
    pistaHallDeEntrada ≠ [] ∧ pistaHallDeEntrada.length < TAM_CONTEUDO ∧
      OrdemComRepeticao (.no .nulo pistaCozinha (.no .nulo pistaHallDeEntrada .nulo)) ∧
      inserirPista (.no .nulo pistaCozinha (.no .nulo pistaHallDeEntrada .nulo))
          (some pistaHallDeEntrada) =
        .no .nulo pistaCozinha
          (.no .nulo pistaHallDeEntrada (.no .nulo pistaHallDeEntrada .nulo)) ∧
      exibirPistas
          (inserirPista (.no .nulo pistaCozinha (.no .nulo pistaHallDeEntrada .nulo))
            (some pistaHallDeEntrada)) =
        [pistaCozinha, pistaHallDeEntrada, pistaHallDeEntrada] :=
  ⟨by decide, by decide, by decide, by decide,
    (((c8_inserirPista_acrescenta_no
      (.no .nulo pistaCozinha (.no .nulo pistaHallDeEntrada .nulo)) pistaHallDeEntrada
      (by decide) (by decide)).2.2.2.2.2.1) (by decide)).1.trans (by decide)⟩

end Aventureiro
